import Mathlib

/-!
A shallow embedding of the reference-dereferencing engine of
`mongoengine/dereference.py` (classes `DeReference` and `AsyncDeReference`)
and of the `async_switch_db` context manager of
`mongoengine/async_context_managers.py`, together with proofs about the
behaviour of the embedded code.

Conventions of the embedding:
* Python values that the resolver inspects are modelled by the inductive
  type `Value`.  Object identifiers (`ObjectId` / `_id`) are modelled as
  `Nat`, collection names and class names as `String`.
* `LazyReference` is a structural subclass of `DBRef` in the source, so
  every place where the source tests `isinstance(v, DBRef)` matches both
  the `dbref` and the `lazyref` constructors (helper `refKey`).
* External collaborators (query sets, raw-row materialisation, the field
  type system) are supplied through a `World` structure of abstract
  functions; the spec treats them as external interfaces (§6).
-/

namespace Mongo

/-- Declared-field information the scanner and attacher read from a field
object of the schema.  `docType` models `field.document_type` (the class
declared as the target of a reference field); `elemType` models
`getattr(getattr(field, "field", None), "document_type", None)` restricted
to the case the source tests for, namely that the element type is a
top-level `Document` class (`isinstance(field_cls, (Document,
TopLevelDocumentMetaclass))`); `none` covers both "no element type" and
"element type is an embedded document", which the source treats alike. -/
structure FieldDecl where
  docType : String
  elemType : Option String
deriving DecidableEq, Repr

/-- Owner metadata carried by the owner-tracked containers `BaseList` /
`BaseDict`: the owning instance (identity modelled as a string, `none` for
Python `None`) and the field-path name (`none` for Python `None`). -/
abbrev OwnerTag := Option String × Option String

/-- The tree of values the resolver walks.  `vdoc cls fields data` models a
`Document`/`EmbeddedDocument` instance of class `cls` with declared fields
`fields` (`_fields`) and current values `data` (`_data`).  `vlist xs owner
edl` models a plain `list` when `owner = none`, a `BaseList owner` when
`owner = some _`, with `edl = true` when the object is an
`EmbeddedDocumentList`.  `vdict kvs owner` likewise models `dict`/`SON`
versus `BaseDict`.  `proxy u` models an `AsyncReferenceProxy` whose
unwrapping expression `v.instance._data.get(field_name)` yields `u`. -/
inductive Value where
  | vnone : Value
  | vstr (s : String) : Value
  | scalar (n : Nat) : Value
  | oid (i : Nat) : Value
  | dbref (c : String) (i : Nat) : Value
  | lazyref (c : String) (i : Nat) : Value
  | proxy (u : Value) : Value
  | vtuple (xs : List Value) : Value
  | vlist (xs : List Value) (owner : Option OwnerTag) (edl : Bool) : Value
  | vdict (kvs : List (String × Value)) (owner : Option OwnerTag) : Value
  | vdoc (cls : String) (fields : List (String × FieldDecl))
      (data : List (String × Value)) : Value
deriving Repr

namespace Value

/-- Python truthiness of the values the resolver meets: `None`, empty
strings, zero, and empty containers are falsy (`not items`). `DBRef`,
documents and proxies define no `__bool__`/`__len__` and are truthy. -/
def isFalsy : Value → Bool
  | vnone => true
  | vstr s => s = ""
  | scalar n => n = 0
  | vtuple xs => xs.isEmpty
  | vlist xs _ _ => xs.isEmpty
  | vdict kvs _ => kvs.isEmpty
  | _ => false

/-- `isinstance(v, DBRef)` together with the `.collection` / `.id`
attributes: matches both `DBRef` and its subclass `LazyReference`. -/
def refKey : Value → Option (String × Nat)
  | dbref c i => some (c, i)
  | lazyref c i => some (c, i)
  | _ => none

/-- `hasattr(v, "id")`: true for `DBRef`/`LazyReference` and for bare
identifiers (the source's `# ObjectId` comments rely on this test), the
matching identifier is returned. -/
def idAttr : Value → Option Nat
  | dbref _ i => some i
  | lazyref _ i => some i
  | oid i => some i
  | _ => none

/-- `isinstance(v, (dict, SON))`. -/
def isDictLike : Value → Bool
  | vdict _ _ => true
  | _ => false

/-- `isinstance(v, (dict, list, tuple))`. -/
def isContainer : Value → Bool
  | vdict _ _ => true
  | vlist _ _ _ => true
  | vtuple _ => true
  | _ => false

/-- `isinstance(items, (BaseDict, BaseList))`: owner-tracked containers. -/
def isOwned : Value → Bool
  | vlist _ (some _) _ => true
  | vdict _ (some _) => true
  | _ => false

end Value

/-- Lookup in an association list modelling `dict.get(k, default)` where
the default is Python `None` (`Value.vnone`). -/
def lookupD (kvs : List (String × Value)) (k : String) : Value :=
  match kvs with
  | [] => Value.vnone
  | (k', v) :: rest => if k' = k then v else lookupD rest k

/-- `k in d` for a Python dict modelled as an association list. -/
def containsKey (kvs : List (String × Value)) (k : String) : Bool :=
  match kvs with
  | [] => false
  | (k', _) :: rest => k' = k || containsKey rest k

/-- Updating the entry of an existing key, modelling `d[k] = v` at a key
already present in `d` (dict order is preserved). -/
def updateAssoc (kvs : List (String × Value)) (k : String) (v : Value) :
    List (String × Value) :=
  match kvs with
  | [] => []
  | (k', v') :: rest =>
      if k' = k then (k', v) :: rest else (k', v') :: updateAssoc rest k v

/-- Removing a key, modelling `del d[k]` / `d.pop(k)` (first occurrence). -/
def eraseKey (kvs : List (String × Value)) (k : String) :
    List (String × Value) :=
  match kvs with
  | [] => []
  | (k', v') :: rest =>
      if k' = k then rest else (k', v') :: eraseKey rest k

theorem sizeOf_lookupD (kvs : List (String × Value)) (k : String) :
    sizeOf (lookupD kvs k) ≤ sizeOf kvs := by
  induction kvs with
  | nil => simp [lookupD]
  | cons p rest ih =>
      obtain ⟨k', v⟩ := p
      by_cases h : k' = k <;> simp [lookupD, h] <;> omega

theorem sizeOf_eraseKey_lt (kvs : List (String × Value)) (k : String)
    (h : containsKey kvs k = true) : sizeOf (eraseKey kvs k) < sizeOf kvs := by
  induction kvs with
  | nil => simp [containsKey] at h
  | cons p rest ih =>
      obtain ⟨k', v⟩ := p
      by_cases hk : k' = k
      · simp [eraseKey, hk]
      · simp [containsKey, hk] at h
        simp [eraseKey, hk]
        have := ih h
        omega

/-- A key of the Reference Map: either a concrete `Document` class obtained
from a field declaration or the registry (`field.document_type`,
`_DocumentRegistry.get(...)`), or a raw collection-name string
(`item.collection` of a bare `DBRef`). -/
inductive TypeKey where
  | docType (cls : String) : TypeKey
  | collName (c : String) : TypeKey
deriving DecidableEq, Repr

/-- The transient scan result `reference_map`: an insertion-ordered `dict`
from `TypeKey` to a `set` of pending identifiers (buckets are modelled as
duplicate-free insertion-ordered lists). -/
abbrev RefMap := List (TypeKey × List Nat)

/-- `set.add`: adds `i` to a bucket unless already present. -/
def bucketAdd (b : List Nat) (i : Nat) : List Nat :=
  if i ∈ b then b else b ++ [i]

/-- `set.update`: adds every identifier of `refs` to the bucket. -/
def bucketUnion (b : List Nat) (refs : List Nat) : List Nat :=
  refs.foldl bucketAdd b

/-- `reference_map.setdefault(k, set()).add(i)`. -/
def rmAdd (m : RefMap) (k : TypeKey) (i : Nat) : RefMap :=
  match m with
  | [] => [(k, [i])]
  | (k', b) :: rest =>
      if k' = k then (k', bucketAdd b i) :: rest else (k', b) :: rmAdd rest k i

/-- `reference_map.setdefault(k, set()).update(refs)`. -/
def rmUpdate (m : RefMap) (k : TypeKey) (refs : List Nat) : RefMap :=
  match m with
  | [] => [(k, bucketUnion [] refs)]
  | (k', b) :: rest =>
      if k' = k then (k', bucketUnion b refs) :: rest
      else (k', b) :: rmUpdate rest k refs

/-- Merging a recursively computed reference map into the accumulator:
`for key, refs in references.items(): reference_map.setdefault(key,
set()).update(refs)`. -/
def rmMerge (acc child : RefMap) : RefMap :=
  child.foldl (fun m kr => rmUpdate m kr.1 kr.2) acc

/-- The merging loop of the container-field case of `_find_references`:
each key of the child map is replaced by the field's inferred element type
when `isinstance(field_cls, (Document, TopLevelDocumentMetaclass))`. -/
def rmMergeRetyped (acc child : RefMap) (elemType : Option String) : RefMap :=
  child.foldl
    (fun m kr =>
      match elemType with
      | some t => rmUpdate m (TypeKey.docType t) kr.2
      | none => rmUpdate m kr.1 kr.2)
    acc

/-- The tagged-pointer entry of `_find_references`:
`reference_map.setdefault(_DocumentRegistry.get(v["_cls"]),
set()).add(v["_ref"].id)`.  A tagged mapping whose `_cls` value is not a
registered class name or whose `_ref` value has no `id` attribute would
raise in the source; those malformed shapes contribute nothing here. -/
def taggedAdd (acc : RefMap) (kvs : List (String × Value)) : RefMap :=
  match lookupD kvs "_cls", (lookupD kvs "_ref").idAttr with
  | Value.vstr cn, some i => rmAdd acc (TypeKey.docType cn) i
  | _, _ => acc

mutual

/-- `DeReference._find_references(items, depth)` (dereference.py lines
108-165).  `md` is the instance attribute `self.max_depth`.  The guard
`not items or depth >= self.max_depth` returns an empty map; a `dict`
iterates its values, a `list`/`tuple` its elements.  A value that is not a
container is never passed to this function by the recursion sites, and the
entry points only pass containers; such values yield an empty map. -/
def findReferences (md : Nat) (items : Value) (depth : Nat) : RefMap :=
  if items.isFalsy ∨ md ≤ depth then []
  else
    match items with
    | Value.vdict kvs _ => scanPairs md (depth + 1) kvs []
    | Value.vlist xs _ _ => scanItems md (depth + 1) xs []
    | Value.vtuple xs => scanItems md (depth + 1) xs []
    | _ => []
termination_by (sizeOf items, 0)

/-- The `for item in iterator` loop of `_find_references` over a dict's
values (`items.values()`); `dInc` is the already incremented depth. -/
def scanPairs (md dInc : Nat) (kvs : List (String × Value)) (acc : RefMap) :
    RefMap :=
  match kvs with
  | [] => acc
  | (_, v) :: rest => scanPairs md dInc rest (scanItem md dInc acc v)
termination_by (sizeOf kvs, 0)

/-- The `for item in iterator` loop of `_find_references` over a list. -/
def scanItems (md dInc : Nat) (xs : List Value) (acc : RefMap) : RefMap :=
  match xs with
  | [] => acc
  | v :: rest => scanItems md dInc rest (scanItem md dInc acc v)
termination_by (sizeOf xs, 0)

/-- One iteration of the loop of `_find_references` (lines 127-163):
documents are scanned field by field; a `LazyReference` is skipped (it
inherits `DBRef` but must not be dereferenced); a bare `DBRef` is recorded
under its raw collection name; a tagged mapping is recorded through the
registry; other containers are recursed into at `depth - 1` (i.e. the
depth before the loop's increment). -/
def scanItem (md dInc : Nat) (acc : RefMap) (item : Value) : RefMap :=
  match item with
  | Value.vdoc _ flds ddata => scanDocFields md dInc acc flds ddata
  | Value.lazyref _ _ => acc
  | Value.dbref c i => rmAdd acc (TypeKey.collName c) i
  | Value.vdict kvs ow =>
      if containsKey kvs "_ref" then taggedAdd acc kvs
      else if dInc - 1 ≤ md then
        rmMerge acc (findReferences md (Value.vdict kvs ow) (dInc - 1))
      else acc
  | Value.vlist xs ow edl =>
      if dInc - 1 ≤ md then
        rmMerge acc (findReferences md (Value.vlist xs ow edl) (dInc - 1))
      else acc
  | Value.vtuple xs =>
      if dInc - 1 ≤ md then
        rmMerge acc (findReferences md (Value.vtuple xs) (dInc - 1))
      else acc
  | _ => acc
termination_by (sizeOf item, 1)

/-- The `for field_name, field in item._fields.items()` loop of
`_find_references` (lines 129-150); each field's current value is read
from `_data` (`item._data.get(field_name, None)`). -/
def scanDocFields (md dInc : Nat) (acc : RefMap)
    (flds : List (String × FieldDecl)) (ddata : List (String × Value)) :
    RefMap :=
  match flds with
  | [] => acc
  | (fn, fd) :: rest =>
      scanDocFields md dInc (scanDocField md dInc acc fd (lookupD ddata fn))
        rest ddata
termination_by (sizeOf flds + sizeOf ddata, 0)
decreasing_by all_goals (first
  | decreasing_tactic
  | (simp_wf
     apply Prod.Lex.left
     have h := sizeOf_lookupD ddata fn
     omega))

/-- One field of a document in `_find_references` (lines 130-150): a
`LazyReference` value is skipped; a `DBRef` is recorded under the field's
declared `document_type`; a tagged mapping through the registry; container
values recurse at the incremented depth when `depth <= self.max_depth`,
retyping the child buckets by the field's element type. -/
def scanDocField (md dInc : Nat) (acc : RefMap) (fd : FieldDecl)
    (v : Value) : RefMap :=
  match v with
  | Value.lazyref _ _ => acc
  | Value.dbref _ i => rmAdd acc (TypeKey.docType fd.docType) i
  | Value.vdict kvs ow =>
      if containsKey kvs "_ref" then taggedAdd acc kvs
      else if dInc ≤ md then
        rmMergeRetyped acc (findReferences md (Value.vdict kvs ow) dInc)
          fd.elemType
      else acc
  | Value.vlist xs ow edl =>
      if dInc ≤ md then
        rmMergeRetyped acc (findReferences md (Value.vlist xs ow edl) dInc)
          fd.elemType
      else acc
  | Value.vtuple xs =>
      if dInc ≤ md then
        rmMergeRetyped acc (findReferences md (Value.vtuple xs) dInc)
          fd.elemType
      else acc
  | _ => acc
termination_by (sizeOf v, 1)

end

mutual

/-- `AsyncDeReference._find_references(items, depth)` (dereference.py lines
459-526): identical to the synchronous scanner except that a document field
holding an `AsyncReferenceProxy` is unwrapped and recorded (see
`asyncScanDocField`). -/
def asyncFindReferences (md : Nat) (items : Value) (depth : Nat) : RefMap :=
  if items.isFalsy ∨ md ≤ depth then []
  else
    match items with
    | Value.vdict kvs _ => asyncScanPairs md (depth + 1) kvs []
    | Value.vlist xs _ _ => asyncScanItems md (depth + 1) xs []
    | Value.vtuple xs => asyncScanItems md (depth + 1) xs []
    | _ => []
termination_by (sizeOf items, 0)

/-- Loop of `AsyncDeReference._find_references` over a dict's values. -/
def asyncScanPairs (md dInc : Nat) (kvs : List (String × Value))
    (acc : RefMap) : RefMap :=
  match kvs with
  | [] => acc
  | (_, v) :: rest => asyncScanPairs md dInc rest (asyncScanItem md dInc acc v)
termination_by (sizeOf kvs, 0)

/-- Loop of `AsyncDeReference._find_references` over a list. -/
def asyncScanItems (md dInc : Nat) (xs : List Value) (acc : RefMap) : RefMap :=
  match xs with
  | [] => acc
  | v :: rest => asyncScanItems md dInc rest (asyncScanItem md dInc acc v)
termination_by (sizeOf xs, 0)

/-- One iteration of the loop of `AsyncDeReference._find_references` (lines
475-524); the bare-item cases are those of the synchronous scanner (a bare
`AsyncReferenceProxy` element matches none of them and is skipped). -/
def asyncScanItem (md dInc : Nat) (acc : RefMap) (item : Value) : RefMap :=
  match item with
  | Value.vdoc _ flds ddata => asyncScanDocFields md dInc acc flds ddata
  | Value.lazyref _ _ => acc
  | Value.dbref c i => rmAdd acc (TypeKey.collName c) i
  | Value.vdict kvs ow =>
      if containsKey kvs "_ref" then taggedAdd acc kvs
      else if dInc - 1 ≤ md then
        rmMerge acc (asyncFindReferences md (Value.vdict kvs ow) (dInc - 1))
      else acc
  | Value.vlist xs ow edl =>
      if dInc - 1 ≤ md then
        rmMerge acc (asyncFindReferences md (Value.vlist xs ow edl) (dInc - 1))
      else acc
  | Value.vtuple xs =>
      if dInc - 1 ≤ md then
        rmMerge acc (asyncFindReferences md (Value.vtuple xs) (dInc - 1))
      else acc
  | _ => acc
termination_by (sizeOf item, 1)

/-- The field loop of `AsyncDeReference._find_references` (lines 477-511). -/
def asyncScanDocFields (md dInc : Nat) (acc : RefMap)
    (flds : List (String × FieldDecl)) (ddata : List (String × Value)) :
    RefMap :=
  match flds with
  | [] => acc
  | (fn, fd) :: rest =>
      asyncScanDocFields md dInc
        (asyncScanDocField md dInc acc fd (lookupD ddata fn)) rest ddata
termination_by (sizeOf flds + sizeOf ddata, 0)
decreasing_by all_goals (first
  | decreasing_tactic
  | (simp_wf
     apply Prod.Lex.left
     have h := sizeOf_lookupD ddata fn
     omega))

/-- One field of a document in `AsyncDeReference._find_references` (lines
479-511).  A field value that is an `AsyncReferenceProxy` is unwrapped to
`v.instance._data.get(field_name)` (the proxy's underlying raw pointer):
a `DBRef` (or its subclass `LazyReference`) contributes its `id`, a bare
identifier with an `id` attribute contributes itself, both under the
field's declared `document_type`; other underlying shapes are skipped.
The remaining cases are those of the synchronous scanner. -/
def asyncScanDocField (md dInc : Nat) (acc : RefMap) (fd : FieldDecl)
    (v : Value) : RefMap :=
  match v with
  | Value.proxy u =>
      match u.refKey with
      | some (_, i) => rmAdd acc (TypeKey.docType fd.docType) i
      | none =>
          match u.idAttr with
          | some i => rmAdd acc (TypeKey.docType fd.docType) i
          | none => acc
  | Value.lazyref _ _ => acc
  | Value.dbref _ i => rmAdd acc (TypeKey.docType fd.docType) i
  | Value.vdict kvs ow =>
      if containsKey kvs "_ref" then taggedAdd acc kvs
      else if dInc ≤ md then
        rmMergeRetyped acc (asyncFindReferences md (Value.vdict kvs ow) dInc)
          fd.elemType
      else acc
  | Value.vlist xs ow edl =>
      if dInc ≤ md then
        rmMergeRetyped acc (asyncFindReferences md (Value.vlist xs ow edl) dInc)
          fd.elemType
      else acc
  | Value.vtuple xs =>
      if dInc ≤ md then
        rmMergeRetyped acc (asyncFindReferences md (Value.vtuple xs) dInc)
          fd.elemType
      else acc
  | _ => acc
termination_by (sizeOf v, 1)

end


/-- A raw row returned by a `find({"_id": {"$in": refs}})` query on a raw
collection: its primary key, the optional `_cls` discriminator, and the
remaining stored entries. -/
structure Row where
  id : Nat
  cls : Option String
  son : List (String × Value)
deriving Repr

/-- Python `str.capitalize`: first character upper-cased, the rest
lower-cased. -/
def pyCapitalize (s : String) : String :=
  match s.data with
  | [] => ""
  | c :: cs => String.mk (c.toUpper :: cs.map Char.toLower)

/-- `"".join(x.capitalize() for x in collection.split("_"))` (dereference.py
line 207): the last-resort registry key derived from a collection name. -/
def camelize (c : String) : String :=
  String.join ((c.splitOn "_").map pyCapitalize)

/-- The transient fetch result `object_map`: an insertion-ordered `dict`
from `(collection_name, identifier)` to the resolved document. -/
abbrev ObjMap := List ((String × Nat) × Value)

/-- `k in object_map`. -/
def omMem (om : ObjMap) (k : String × Nat) : Bool :=
  match om with
  | [] => false
  | (k', _) :: rest => k' = k || omMem rest k

/-- `object_map.get(k)`. -/
def omGet (om : ObjMap) (k : String × Nat) : Option Value :=
  match om with
  | [] => none
  | (k', v) :: rest => if k' = k then some v else omGet rest k

/-- `object_map.get(k, d)`. -/
def omGetD (om : ObjMap) (k : String × Nat) (d : Value) : Value :=
  (omGet om k).getD d

/-- `object_map[k] = v` (dict assignment: update in place or append). -/
def omSet (om : ObjMap) (k : String × Nat) (v : Value) : ObjMap :=
  match om with
  | [] => [(k, v)]
  | (k', v') :: rest =>
      if k' = k then (k', v) :: rest else (k', v') :: omSet rest k v

/-- The `doc_type` argument threaded from `__call__` into the fetchers:
Python `None`; a `ListField`/`DictField`/`MapField` instance (the
`isinstance(doc_type, (ListField, DictField, MapField))` test); or a
concrete `Document` class.  A plain non-reference field object left by the
unwrapping loop would crash the generic fetch path in the source
(`doc_type._from_son` does not exist); it is modelled as `noneTy`. -/
inductive FetchDocType where
  | noneTy : FetchDocType
  | containerF : FetchDocType
  | docCls (cls : String) : FetchDocType
deriving DecidableEq, Repr

/-- The external collaborators of the resolver (spec §6), abstracted:
`collNameOf` is `cls._get_collection_name()`; `clsFields` the `_fields`
declaration of a registered class; `inBulk` the per-identifier view of
`collection.objects.in_bulk(refs)` (an identifier maps to `none` when the
stored data has no such document); `find` the per-identifier view of a raw
`find({"_id": {"$in": refs}})` (both through `get_db` and `get_async_db`,
i.e. equivalent stored data for the two variants); `fromSon` is
`cls._from_son(row)`; `hasAsyncInBulk` is
`hasattr(collection.objects, "async_in_bulk")`; `asyncInBulk` the
per-identifier view of `async_in_bulk`; `asyncGet cls i = none` models
`await collection.objects.async_get(id=i)` raising (any exception);
`refToPython` is `ReferenceField.to_python` of the call-site field. -/
structure World where
  collNameOf : String → String
  clsFields : String → List (String × FieldDecl)
  inBulk : String → Nat → Option Value
  find : String → Nat → Option Row
  fromSon : String → Row → Value
  hasAsyncInBulk : String → Bool
  asyncInBulk : String → Nat → Option Value
  asyncGet : String → Nat → Option Value
  refToPython : String → Value → Value

/-- One bucket of `DeReference._fetch_objects` (dereference.py lines
170-211), transforming the accumulated object map and appending the bulk
request this bucket issues (its collection name and the identifier list
passed to the query).  A `TypeKey.docType` key is a class, for which
`getattr(collection, "objects", None)` is not `None`; a raw collection
name has no `objects` attribute and takes the generic branch, which is
skipped entirely when `doc_type` is a container field.  In every branch
the identifiers already present in the object map are subtracted before
the query. -/
def fetchBucket (w : World) (dt : FetchDocType)
    (st : ObjMap × List (String × List Nat)) (key : TypeKey)
    (ids : List Nat) : ObjMap × List (String × List Nat) :=
  match key with
  | TypeKey.docType cls =>
      let col := w.collNameOf cls
      let refs := ids.filter (fun i => !(omMem st.1 (col, i)))
      let found := refs.filterMap (fun i => (w.inBulk cls i).map ((i, ·)))
      (found.foldl (fun om e => omSet om (col, e.1) e.2) st.1,
       st.2 ++ [(col, refs)])
  | TypeKey.collName c =>
      match dt with
      | FetchDocType.containerF => st
      | FetchDocType.docCls t =>
          let refs := ids.filter (fun i => !(omMem st.1 (c, i)))
          let rows := refs.filterMap (w.find c)
          (rows.foldl (fun om r => omSet om (c, r.id) (w.fromSon t r)) st.1,
           st.2 ++ [(c, refs)])
      | FetchDocType.noneTy =>
          let refs := ids.filter (fun i => !(omMem st.1 (c, i)))
          let rows := refs.filterMap (w.find c)
          (rows.foldl
            (fun om r =>
              match r.cls with
              | some cn => omSet om (c, r.id) (w.fromSon cn r)
              | none => omSet om (c, r.id) (w.fromSon (camelize c) r))
            st.1,
           st.2 ++ [(c, refs)])

/-- `DeReference._fetch_objects(doc_type)` over a reference map, together
with the list of bulk lookups issued (one per non-skipped bucket). -/
def fetchObjectsR (w : World) (dt : FetchDocType) (rm : RefMap) :
    ObjMap × List (String × List Nat) :=
  rm.foldl (fun st kb => fetchBucket w dt st kb.1 kb.2) ([], [])

/-- The object map computed by `DeReference._fetch_objects(doc_type)`. -/
def fetchObjects (w : World) (dt : FetchDocType) (rm : RefMap) : ObjMap :=
  (fetchObjectsR w dt rm).1

/-- One bucket of `AsyncDeReference._async_fetch_objects` (lines 400-457):
as the blocking bucket, except that the class branch uses
`async_in_bulk` when available and otherwise fetches each identifier
individually through `async_get`, catching and swallowing any exception so
a failed identifier is simply absent from the result. -/
def asyncFetchBucket (w : World) (dt : FetchDocType) (om : ObjMap)
    (key : TypeKey) (ids : List Nat) : ObjMap :=
  match key with
  | TypeKey.docType cls =>
      let col := w.collNameOf cls
      let refs := ids.filter (fun i => !(omMem om (col, i)))
      let references :=
        if w.hasAsyncInBulk cls then
          refs.filterMap (fun i => (w.asyncInBulk cls i).map ((i, ·)))
        else
          refs.filterMap (fun i => (w.asyncGet cls i).map ((i, ·)))
      references.foldl (fun om e => omSet om (col, e.1) e.2) om
  | TypeKey.collName c =>
      match dt with
      | FetchDocType.containerF => om
      | FetchDocType.docCls t =>
          let refs := ids.filter (fun i => !(omMem om (c, i)))
          let rows := refs.filterMap (w.find c)
          rows.foldl (fun om r => omSet om (c, r.id) (w.fromSon t r)) om
      | FetchDocType.noneTy =>
          let refs := ids.filter (fun i => !(omMem om (c, i)))
          let rows := refs.filterMap (w.find c)
          rows.foldl
            (fun om r =>
              match r.cls with
              | some cn => omSet om (c, r.id) (w.fromSon cn r)
              | none => omSet om (c, r.id) (w.fromSon (camelize c) r))
            om
  
/-- The object map computed by
`AsyncDeReference._async_fetch_objects(doc_type)`. -/
def asyncFetchObjects (w : World) (dt : FetchDocType) (rm : RefMap) :
    ObjMap :=
  rm.foldl (fun om kb => asyncFetchBucket w dt om kb.1 kb.2) []


/-- Truthiness of the `name` argument (`if instance and name`): Python
`None` and the empty string are falsy. -/
def isTruthyName : Option String → Bool
  | none => false
  | some s => s ≠ ""

/-- The text an f-string interpolation produces for the `name` argument
(`f"{name}..."` renders Python `None` as `"None"`). -/
def pyStr : Option String → String
  | none => "None"
  | some s => s

/-- `f"{name}.{k}" if name else name` (dereference.py line 292). -/
def childName (name : Option String) (k : String) : Option String :=
  if isTruthyName name then some (pyStr name ++ "." ++ k) else name

/-- `f"{name}.{k}.{field_name}"` (line 287; no truthiness guard here). -/
def fieldChildName (name : Option String) (k fn : String) : String :=
  pyStr name ++ "." ++ k ++ "." ++ fn

mutual

/-- `DeReference._attach_objects(items, depth, instance, name)`
(dereference.py lines 214-304).  `inst` is the identity of the `instance`
argument (`none` for Python `None`); `name` the field-path argument.  The
falsy entry guard (lines 225-233) returns owner-tracked containers as they
are, wraps an empty plain container into a `BaseDict`/`BaseList` when an
instance was supplied, and otherwise falls through to the body.  A falsy
non-container with an instance would crash in `BaseList(items, ...)`; the
recursion sites and entry points never produce that call. -/
def attachObjects (w : World) (md : Nat) (om : ObjMap) (items : Value)
    (depth : Nat) (inst : Option String) (name : Option String) : Value :=
  if items.isFalsy then
    if items.isOwned then items
    else if inst.isSome then
      match items with
      | Value.vdict kvs _ => Value.vdict kvs (some (inst, name))
      | Value.vlist xs _ _ => Value.vlist xs (some (inst, name)) false
      | Value.vtuple xs => Value.vlist xs (some (inst, name)) false
      | _ => items
    else attachBody w md om items depth inst name
  else attachBody w md om items depth inst name
termination_by (sizeOf items, 1)

/-- The body of `_attach_objects` after the falsy guard: the tagged-dict
branches (lines 235-247) and the container loop (lines 249-304).  In the
`"_ref"` branch the source reads `items["_ref"].collection` and `.id`, so
a `_ref` value that is not a `DBRef` would raise; such malformed dicts are
returned unchanged here.  In the `"_cls"` branch,
`_DocumentRegistry.get(items["_cls"])._from_son(items)` is modelled as a
document of that class whose `_data` holds the dict's entries (raw-row
materialisation is an external collaborator); a non-string `_cls` value
would raise in the registry lookup and is returned unchanged here.  The
loop's `if k in self.object_map and not is_list` test (line 269) compares
a dict key (a string) with the object map's `(collection, id)` pair keys
and therefore never fires for the string-keyed dicts of this model.  A
truthy non-container reaching the loop would raise in `enumerate`; the
recursion sites only pass containers. -/
def attachBody (w : World) (md : Nat) (om : ObjMap) (items : Value)
    (depth : Nat) (inst : Option String) (name : Option String) : Value :=
  match items with
  | Value.vdict kvs ow =>
      if containsKey kvs "_ref" then
        match (lookupD kvs "_ref").refKey with
        | some ci => omGetD om ci (Value.vdict kvs ow)
        | none => Value.vdict kvs ow
      else if hc : containsKey kvs "_cls" then
        match lookupD kvs "_cls" with
        | Value.vstr cn =>
            let inner := attachObjects w md om
              (Value.vdict (eraseKey kvs "_cls") none) depth (some cn) none
            let innerKvs := match inner with
              | Value.vdict l _ => l
              | _ => []
            Value.vdoc cn (w.clsFields cn)
              (innerKvs ++ [("_cls", Value.vstr cn)])
        | _ => Value.vdict kvs ow
      else
        let data := attachPairs w md om (depth + 1) inst name kvs
        if inst.isSome && isTruthyName name then
          Value.vdict data (some (inst, name))
        else Value.vdict data none
  | Value.vlist xs _ edl =>
      let data := attachItems w md om (depth + 1) inst name 0 xs
      if inst.isSome && isTruthyName name then
        Value.vlist data (some (inst, name)) edl
      else Value.vlist data none false
  | Value.vtuple xs =>
      let data := attachItems w md om (depth + 1) inst name 0 xs
      if inst.isSome && isTruthyName name then Value.vtuple data
      else Value.vlist data none false
  | _ => items
termination_by (sizeOf items, 0)
decreasing_by all_goals (first
  | decreasing_tactic
  | (simp_wf
     apply Prod.Lex.left
     rename_i a b _c
     have h1 := sizeOf_eraseKey_lt a "_cls" hc
     have h2 : 0 < sizeOf b := by cases b <;> simp_arith
     omega))

/-- The loop of `_attach_objects` over a dict's items (lines 259-297):
each value is rewritten by `attachElem`; keys and order are preserved. -/
def attachPairs (w : World) (md : Nat) (om : ObjMap) (dInc : Nat)
    (inst : Option String) (name : Option String)
    (kvs : List (String × Value)) : List (String × Value) :=
  match kvs with
  | [] => []
  | (k, v) :: rest =>
      (k, attachElem w md om dInc inst name k v) ::
        attachPairs w md om dInc inst name rest
termination_by (sizeOf kvs, 0)

/-- The loop of `_attach_objects` over a list (lines 255-297), `idx` being
the running `enumerate` index. -/
def attachItems (w : World) (md : Nat) (om : ObjMap) (dInc : Nat)
    (inst : Option String) (name : Option String) (idx : Nat)
    (xs : List Value) : List Value :=
  match xs with
  | [] => []
  | v :: rest =>
      attachElem w md om dInc inst name (toString idx) v ::
        attachItems w md om dInc inst name (idx + 1) rest
termination_by (sizeOf xs, 0)

/-- One element of the loop of `_attach_objects` (lines 269-297), with
`dInc` the already incremented depth and `k` the rendered key/index.  A
document element has its fields rewritten in place; a container element
recurses at `depth - 1` when `depth <= self.max_depth`; a `DBRef` element
(`LazyReference` included, the source has no `LazyReference` test here) is
replaced by its object-map entry when present. -/
def attachElem (w : World) (md : Nat) (om : ObjMap) (dInc : Nat)
    (inst : Option String) (name : Option String) (k : String) (v : Value) :
    Value :=
  match v with
  | Value.vdoc cls flds ddata =>
      Value.vdoc cls flds
        (attachDocFields w md om dInc inst name k flds ddata ddata)
  | Value.vdict kvs ow =>
      if dInc ≤ md then
        attachObjects w md om (Value.vdict kvs ow) (dInc - 1) inst
          (childName name k)
      else Value.vdict kvs ow
  | Value.vlist xs ow edl =>
      if dInc ≤ md then
        attachObjects w md om (Value.vlist xs ow edl) (dInc - 1) inst
          (childName name k)
      else Value.vlist xs ow edl
  | Value.vtuple xs =>
      if dInc ≤ md then
        attachObjects w md om (Value.vtuple xs) (dInc - 1) inst
          (childName name k)
      else Value.vtuple xs
  | Value.dbref c i => omGetD om (c, i) (Value.dbref c i)
  | Value.lazyref c i => omGetD om (c, i) (Value.lazyref c i)
  | _ => v
termination_by (sizeOf v, 2)

/-- The field loop of a document element (lines 272-290): `orig` is the
document's `_data` as it was when the loop started, `cur` the threaded
updated `_data`.  Each iteration reads its own field name, which no
earlier iteration can have written (`_fields` keys are unique), so reading
from `orig` is exactly the source's read of the current dict. -/
def attachDocFields (w : World) (md : Nat) (om : ObjMap) (dInc : Nat)
    (inst : Option String) (name : Option String) (k : String)
    (flds : List (String × FieldDecl)) (orig cur : List (String × Value)) :
    List (String × Value) :=
  match flds with
  | [] => cur
  | (fn, fd) :: rest =>
      attachDocFields w md om dInc inst name k rest orig
        (attachDocField w md om dInc inst name k fn fd (lookupD orig fn) cur)
termination_by (sizeOf flds + sizeOf orig, 0)
decreasing_by all_goals (first
  | decreasing_tactic
  | (simp_wf
     apply Prod.Lex.left
     have h := sizeOf_lookupD orig fn
     omega))

/-- One field of a document element (lines 273-290): a `DBRef` value
(`LazyReference` included) is replaced by its object-map entry when
present; a `{"_ref": ...}` mapping likewise through its `_ref` key (a
malformed `_ref` value would raise in the source); a container value
recurses at the incremented depth when `depth <= self.max_depth` under the
item name `f"{name}.{k}.{field_name}"`.  `fd` is unused in the
synchronous attacher but kept for the shared loop shape. -/
def attachDocField (w : World) (md : Nat) (om : ObjMap) (dInc : Nat)
    (inst : Option String) (name : Option String) (k fn : String)
    (_fd : FieldDecl) (fv : Value) (cur : List (String × Value)) :
    List (String × Value) :=
  match fv with
  | Value.dbref c i => updateAssoc cur fn (omGetD om (c, i) (Value.dbref c i))
  | Value.lazyref c i =>
      updateAssoc cur fn (omGetD om (c, i) (Value.lazyref c i))
  | Value.vdict kvs ow =>
      if containsKey kvs "_ref" then
        match (lookupD kvs "_ref").refKey with
        | some ci => updateAssoc cur fn (omGetD om ci (Value.vdict kvs ow))
        | none => cur
      else if dInc ≤ md then
        updateAssoc cur fn
          (attachObjects w md om (Value.vdict kvs ow) dInc inst
            (some (fieldChildName name k fn)))
      else cur
  | Value.vlist xs ow edl =>
      if dInc ≤ md then
        updateAssoc cur fn
          (attachObjects w md om (Value.vlist xs ow edl) dInc inst
            (some (fieldChildName name k fn)))
      else cur
  | Value.vtuple xs =>
      if dInc ≤ md then
        updateAssoc cur fn
          (attachObjects w md om (Value.vtuple xs) dInc inst
            (some (fieldChildName name k fn)))
      else cur
  | _ => cur
termination_by (sizeOf fv, 2)

end


mutual

/-- `AsyncDeReference._attach_objects(items, depth, instance, name)`
(dereference.py lines 528-630): identical to the synchronous attacher
except for the document-field loop (see `asyncAttachDocField`). -/
def asyncAttachObjects (w : World) (md : Nat) (om : ObjMap) (items : Value)
    (depth : Nat) (inst : Option String) (name : Option String) : Value :=
  if items.isFalsy then
    if items.isOwned then items
    else if inst.isSome then
      match items with
      | Value.vdict kvs _ => Value.vdict kvs (some (inst, name))
      | Value.vlist xs _ _ => Value.vlist xs (some (inst, name)) false
      | Value.vtuple xs => Value.vlist xs (some (inst, name)) false
      | _ => items
    else asyncAttachBody w md om items depth inst name
  else asyncAttachBody w md om items depth inst name
termination_by (sizeOf items, 1)

/-- Body of `AsyncDeReference._attach_objects` after the falsy guard
(lines 542-630); the tagged-dict branches and the container loop are those
of the synchronous attacher. -/
def asyncAttachBody (w : World) (md : Nat) (om : ObjMap) (items : Value)
    (depth : Nat) (inst : Option String) (name : Option String) : Value :=
  match items with
  | Value.vdict kvs ow =>
      if containsKey kvs "_ref" then
        match (lookupD kvs "_ref").refKey with
        | some ci => omGetD om ci (Value.vdict kvs ow)
        | none => Value.vdict kvs ow
      else if hc : containsKey kvs "_cls" then
        match lookupD kvs "_cls" with
        | Value.vstr cn =>
            let inner := asyncAttachObjects w md om
              (Value.vdict (eraseKey kvs "_cls") none) depth (some cn) none
            let innerKvs := match inner with
              | Value.vdict l _ => l
              | _ => []
            Value.vdoc cn (w.clsFields cn)
              (innerKvs ++ [("_cls", Value.vstr cn)])
        | _ => Value.vdict kvs ow
      else
        let data := asyncAttachPairs w md om (depth + 1) inst name kvs
        if inst.isSome && isTruthyName name then
          Value.vdict data (some (inst, name))
        else Value.vdict data none
  | Value.vlist xs _ edl =>
      let data := asyncAttachItems w md om (depth + 1) inst name 0 xs
      if inst.isSome && isTruthyName name then
        Value.vlist data (some (inst, name)) edl
      else Value.vlist data none false
  | Value.vtuple xs =>
      let data := asyncAttachItems w md om (depth + 1) inst name 0 xs
      if inst.isSome && isTruthyName name then Value.vtuple data
      else Value.vlist data none false
  | _ => items
termination_by (sizeOf items, 0)
decreasing_by all_goals (first
  | decreasing_tactic
  | (simp_wf
     apply Prod.Lex.left
     rename_i a b _c
     have h1 := sizeOf_eraseKey_lt a "_cls" hc
     have h2 : 0 < sizeOf b := by cases b <;> simp_arith
     omega))

/-- Loop of `AsyncDeReference._attach_objects` over a dict's items. -/
def asyncAttachPairs (w : World) (md : Nat) (om : ObjMap) (dInc : Nat)
    (inst : Option String) (name : Option String)
    (kvs : List (String × Value)) : List (String × Value) :=
  match kvs with
  | [] => []
  | (k, v) :: rest =>
      (k, asyncAttachElem w md om dInc inst name k v) ::
        asyncAttachPairs w md om dInc inst name rest
termination_by (sizeOf kvs, 0)

/-- Loop of `AsyncDeReference._attach_objects` over a list. -/
def asyncAttachItems (w : World) (md : Nat) (om : ObjMap) (dInc : Nat)
    (inst : Option String) (name : Option String) (idx : Nat)
    (xs : List Value) : List Value :=
  match xs with
  | [] => []
  | v :: rest =>
      asyncAttachElem w md om dInc inst name (toString idx) v ::
        asyncAttachItems w md om dInc inst name (idx + 1) rest
termination_by (sizeOf xs, 0)

/-- One element of the loop of `AsyncDeReference._attach_objects` (lines
576-624); same cases as the synchronous attacher. -/
def asyncAttachElem (w : World) (md : Nat) (om : ObjMap) (dInc : Nat)
    (inst : Option String) (name : Option String) (k : String) (v : Value) :
    Value :=
  match v with
  | Value.vdoc cls flds ddata =>
      Value.vdoc cls flds
        (asyncAttachDocFields w md om dInc inst name k flds ddata ddata)
  | Value.vdict kvs ow =>
      if dInc ≤ md then
        asyncAttachObjects w md om (Value.vdict kvs ow) (dInc - 1) inst
          (childName name k)
      else Value.vdict kvs ow
  | Value.vlist xs ow edl =>
      if dInc ≤ md then
        asyncAttachObjects w md om (Value.vlist xs ow edl) (dInc - 1) inst
          (childName name k)
      else Value.vlist xs ow edl
  | Value.vtuple xs =>
      if dInc ≤ md then
        asyncAttachObjects w md om (Value.vtuple xs) (dInc - 1) inst
          (childName name k)
      else Value.vtuple xs
  | Value.dbref c i => omGetD om (c, i) (Value.dbref c i)
  | Value.lazyref c i => omGetD om (c, i) (Value.lazyref c i)
  | _ => v
termination_by (sizeOf v, 2)

/-- The field loop of a document element under the async attacher (lines
580-617); reads behave as in the synchronous loop. -/
def asyncAttachDocFields (w : World) (md : Nat) (om : ObjMap) (dInc : Nat)
    (inst : Option String) (name : Option String) (k : String)
    (flds : List (String × FieldDecl)) (orig cur : List (String × Value)) :
    List (String × Value) :=
  match flds with
  | [] => cur
  | (fn, fd) :: rest =>
      asyncAttachDocFields w md om dInc inst name k rest orig
        (asyncAttachDocField w md om dInc inst name k fn fd (lookupD orig fn)
          cur)
termination_by (sizeOf flds + sizeOf orig, 0)
decreasing_by all_goals (first
  | decreasing_tactic
  | (simp_wf
     apply Prod.Lex.left
     have h := sizeOf_lookupD orig fn
     omega))

/-- One field of a document element under the async attacher (lines
583-614).  An `AsyncReferenceProxy` is unwrapped to its underlying raw
pointer: a `DBRef` underlying gives `(ref.collection, ref.id)`; a bare
identifier gives `(field.document_type._get_collection_name(), ref)`;
any other underlying shape is skipped (`continue`).  The field is replaced
by the object-map entry of that key only when present — otherwise the
proxy is kept.  The remaining cases are those of the synchronous loop. -/
def asyncAttachDocField (w : World) (md : Nat) (om : ObjMap) (dInc : Nat)
    (inst : Option String) (name : Option String) (k fn : String)
    (fd : FieldDecl) (fv : Value) (cur : List (String × Value)) :
    List (String × Value) :=
  match fv with
  | Value.proxy u =>
      let ck : Option (String × Nat) :=
        match u.refKey with
        | some ci => some ci
        | none =>
            match u.idAttr with
            | some i => some (w.collNameOf fd.docType, i)
            | none => none
      match ck with
      | some ci =>
          match omGet om ci with
          | some d => updateAssoc cur fn d
          | none => cur
      | none => cur
  | Value.dbref c i => updateAssoc cur fn (omGetD om (c, i) (Value.dbref c i))
  | Value.lazyref c i =>
      updateAssoc cur fn (omGetD om (c, i) (Value.lazyref c i))
  | Value.vdict kvs ow =>
      if containsKey kvs "_ref" then
        match (lookupD kvs "_ref").refKey with
        | some ci => updateAssoc cur fn (omGetD om ci (Value.vdict kvs ow))
        | none => cur
      else if dInc ≤ md then
        updateAssoc cur fn
          (asyncAttachObjects w md om (Value.vdict kvs ow) dInc inst
            (some (fieldChildName name k fn)))
      else cur
  | Value.vlist xs ow edl =>
      if dInc ≤ md then
        updateAssoc cur fn
          (asyncAttachObjects w md om (Value.vlist xs ow edl) dInc inst
            (some (fieldChildName name k fn)))
      else cur
  | Value.vtuple xs =>
      if dInc ≤ md then
        updateAssoc cur fn
          (asyncAttachObjects w md om (Value.vtuple xs) dInc inst
            (some (fieldChildName name k fn)))
      else cur
  | _ => cur
termination_by (sizeOf fv, 2)

end


/-- The field object found at the call site (`instance._fields.get(name)`)
as seen by `__call__`'s unwrapping loop `while hasattr(doc_type, "field")`:
a `ReferenceField` with its declared `document_type` and `dbref` flag; a
complex field wrapping an inner field (`.field`, possibly `None`); or a
plain field without a `.field` attribute. -/
inductive FieldSpec where
  | refField (docType : String) (dbrefFlag : Bool) : FieldSpec
  | wrapped (inner : Option FieldSpec) : FieldSpec
  | plain : FieldSpec
deriving Repr

/-- The loop `while hasattr(doc_type, "field"): doc_type = doc_type.field`
(dereference.py lines 54-55); `none` is Python `None` (either the field
lookup failed or an inner `.field` was `None`). -/
def unwrapFieldSpec : FieldSpec → Option FieldSpec
  | FieldSpec.wrapped (some f) => unwrapFieldSpec f
  | FieldSpec.wrapped none => none
  | f => some f

/-- The `instance` argument of `__call__` when it passes the
`isinstance(instance, (Document, EmbeddedDocument,
TopLevelDocumentMetaclass))` test: its identity (used as the owner tag by
the attacher) and its `_fields`.  Callers passing any other object are
modelled by `none`. -/
structure CallInstance where
  id : String
  fields : List (String × FieldSpec)

/-- `instance._fields.get(name)` (line 53); `name` may be Python `None`. -/
def instFieldOf (ci : CallInstance) (name : Option String) :
    Option FieldSpec :=
  match name with
  | some n => (ci.fields.find? (fun p => p.1 = n)).map (fun p => p.2)
  | none => none

/-- `all(i.__class__ == doc_type for i in items)` for the list case (line
62): every element is a document instance of exactly the class `t`.  The
source would raise on a non-iterable `items`; entry callers pass
sequences, and other shapes yield `false` here. -/
def allElemsCls (t : String) : Value → Bool
  | Value.vlist xs _ _ =>
      xs.all fun v =>
        match v with
        | Value.vdoc c _ _ => c = t
        | _ => false
  | Value.vtuple xs =>
      xs.all fun v =>
        match v with
        | Value.vdoc c _ _ => c = t
        | _ => false
  | _ => false

/-- `all(i.__class__ == doc_type for i in items.values())` (line 65). -/
def allValsCls (t : String) : Value → Bool
  | Value.vdict kvs _ =>
      kvs.all fun p =>
        match p.2 with
        | Value.vdoc c _ _ => c = t
        | _ => false
  | _ => false

mutual

/-- `_get_items_from_list` (dereference.py lines 73-84): dicts and lists
recurse (rebuilt as plain containers), `DBRef`s (hence `LazyReference`s)
and documents are kept, anything else goes through the call-site
`ReferenceField.to_python` (external collaborator `refToPython`, keyed by
the field's declared document type `t`). -/
def getItemsFromList (w : World) (t : String) (xs : List Value) :
    List Value :=
  match xs with
  | [] => []
  | v :: rest =>
      (match v with
       | Value.vdict kvs _ => Value.vdict (getItemsFromDict w t kvs) none
       | Value.vlist ys _ _ => Value.vlist (getItemsFromList w t ys) none false
       | Value.dbref c i => Value.dbref c i
       | Value.lazyref c i => Value.lazyref c i
       | Value.vdoc c f d => Value.vdoc c f d
       | other => w.refToPython t other) :: getItemsFromList w t rest
termination_by (sizeOf xs, 0)

/-- `_get_items_from_dict` (lines 86-97). -/
def getItemsFromDict (w : World) (t : String)
    (kvs : List (String × Value)) : List (String × Value) :=
  match kvs with
  | [] => []
  | (k, v) :: rest =>
      (k,
        match v with
        | Value.vlist ys _ _ => Value.vlist (getItemsFromList w t ys) none false
        | Value.vdict kvs' _ => Value.vdict (getItemsFromDict w t kvs') none
        | Value.dbref c i => Value.dbref c i
        | Value.lazyref c i => Value.lazyref c i
        | Value.vdoc c f d => Value.vdoc c f d
        | other => w.refToPython t other) :: getItemsFromDict w t rest
termination_by (sizeOf kvs, 0)

end

/-- The outcome of the call-site field analysis of `__call__` (lines
50-102): either an early return of `items` untouched, or the possibly
converted `items` together with the `doc_type` passed to the fetch
stage. -/
def callPrepare (w : World) (items : Value) (inst : Option CallInstance)
    (name : Option String) : Value × FetchDocType × Bool :=
  match inst with
  | none => (items, FetchDocType.noneTy, false)
  | some ci =>
      match (instFieldOf ci name).bind unwrapFieldSpec with
      | some (FieldSpec.refField t dbrefFlag) =>
          let isList := !items.isDictLike
          if isList && allElemsCls t items then
            (items, FetchDocType.docCls t, true)
          else if !isList && allValsCls t items then
            (items, FetchDocType.docCls t, true)
          else if !dbrefFlag then
            let converted :=
              match items with
              | Value.vdict kvs _ => Value.vdict (getItemsFromDict w t kvs) none
              | Value.vlist xs _ _ =>
                  Value.vlist (getItemsFromList w t xs) none false
              | Value.vtuple xs =>
                  Value.vlist (getItemsFromList w t xs) none false
              | other => other
            (converted, FetchDocType.docCls t, false)
          else (items, FetchDocType.docCls t, false)
      | _ => (items, FetchDocType.noneTy, false)

/-- `DeReference.__call__(items, max_depth, instance, name)` (dereference.py
lines 26-106).  `None` and strings return unchanged; a `QuerySet` argument
is materialised into a list before this point and is not modelled.  When
the call-site field unwraps to a `ReferenceField` whose declared class
matches every element, `items` is returned before any scanning; when the
field stores bare identifiers (`not field.dbref`) they are first converted
to `DBRef`s.  Then the scan, fetch and attach phases run in order. -/
def dereference (w : World) (md : Nat) (items : Value)
    (inst : Option CallInstance) (name : Option String) : Value :=
  match items with
  | Value.vnone => Value.vnone
  | Value.vstr s => Value.vstr s
  | _ =>
      let p := callPrepare w items inst name
      if p.2.2 then p.1
      else
        let rm := findReferences md p.1 0
        let om := fetchObjects w p.2.1 rm
        attachObjects w md om p.1 0 (inst.map (fun ci => ci.id)) name

/-- `AsyncDeReference.__call__` (lines 310-390): the same pipeline through
the async scanner, fetcher and attacher (`AsyncCursor` materialisation is
I/O plumbing and is not modelled). -/
def asyncDereference (w : World) (md : Nat) (items : Value)
    (inst : Option CallInstance) (name : Option String) : Value :=
  match items with
  | Value.vnone => Value.vnone
  | Value.vstr s => Value.vstr s
  | _ =>
      let p := callPrepare w items inst name
      if p.2.2 then p.1
      else
        let rm := asyncFindReferences md p.1 0
        let om := asyncFetchObjects w p.2.1 rm
        asyncAttachObjects w md om p.1 0 (inst.map (fun ci => ci.id)) name

/-- `DEFAULT_CONNECTION_NAME` of `mongoengine/connection.py` (imported by
`async_context_managers.py`; its upstream value). -/
def DEFAULT_CONNECTION_NAME : String := "default"

/-- The attributes of a document class that `async_switch_db` touches:
the `db_alias` entry of `_meta` (`none` when the key is absent), the
cached `_collection`, whether the class has an `_async_collection`
attribute, the cached `_async_collection`, and an opaque remainder for
every other attribute of the class. -/
structure ClsState where
  dbAliasMeta : Option String
  collection : Option Nat
  hasAsyncColl : Bool
  asyncCollection : Option Nat
  otherAttrs : Nat
deriving DecidableEq, Repr

/-- The state the `async_switch_db` context manager object holds across
`__init__`/`__aenter__`/`__aexit__`: `ori_db_alias` computed in `__init__`
as `cls._meta.get("db_alias", DEFAULT_CONNECTION_NAME)`, and the
collections saved by `__aenter__`. -/
structure SwitchCtx where
  oriAlias : String
  savedColl : Option Nat
  savedAsyncColl : Option Nat
deriving DecidableEq, Repr

/-- `async_switch_db.__init__` (async_context_managers.py lines 36-46):
records `ori_db_alias`; `self.collection`/`self.async_collection` start as
`None`. -/
def switchDbInit (st : ClsState) : SwitchCtx :=
  { oriAlias := st.dbAliasMeta.getD DEFAULT_CONNECTION_NAME
    savedColl := none
    savedAsyncColl := none }

/-- `async_switch_db.__aenter__` (lines 48-64): saves the current cached
collections (`getattr(..., None)`), sets `_meta["db_alias"]` to the new
alias, clears `_collection`, and clears `_async_collection` when the class
has that attribute.  `ensure_async_connection` performs no class mutation
and may only raise before anything is saved.  Returns the updated class
state and the updated context-manager state. -/
def switchDbEnter (st : ClsState) (ctx : SwitchCtx) (alias' : String) :
    ClsState × SwitchCtx :=
  ({ st with
      dbAliasMeta := some alias'
      collection := none
      asyncCollection := if st.hasAsyncColl then none else st.asyncCollection },
   { ctx with
      savedColl := st.collection
      savedAsyncColl := if st.hasAsyncColl then st.asyncCollection else none })

/-- `async_switch_db.__aexit__` (lines 66-71), run the same way on normal
exit and when the body raised (its exception arguments are unused): writes
`ori_db_alias` back into `_meta["db_alias"]`, restores `_collection`, and
restores `_async_collection` when the class has that attribute. -/
def switchDbExit (st : ClsState) (ctx : SwitchCtx) : ClsState :=
  { st with
      dbAliasMeta := some ctx.oriAlias
      collection := ctx.savedColl
      asyncCollection :=
        if st.hasAsyncColl then ctx.savedAsyncColl else st.asyncCollection }


/-! Shared concrete fixtures used by witnesses and counterexamples. -/

/-- A resolved target document of class `User`. -/
def demoUser : Value := Value.vdoc "User" [] [("name", Value.vstr "u")]

/-- A stored-data world in which collection `users` holds exactly the
document with identifier 1. -/
def demoWorld : World where
  collNameOf := fun _ => "users"
  clsFields := fun _ => []
  inBulk := fun cls i => if cls = "User" && i == 1 then some demoUser else none
  find := fun c i =>
    if c = "users" && i == 1 then
      some { id := 1, cls := some "User", son := [("name", Value.vstr "u")] }
    else none
  fromSon := fun cls r => Value.vdoc cls [] r.son
  hasAsyncInBulk := fun _ => true
  asyncInBulk := fun cls i => if cls = "User" && i == 1 then some demoUser else none
  asyncGet := fun cls i => if cls = "User" && i == 1 then some demoUser else none
  refToPython := fun _ v => v

/-- A world whose stored data is empty (every lookup misses). -/
def demoWorldEmpty : World where
  collNameOf := fun _ => "users"
  clsFields := fun _ => []
  inBulk := fun _ _ => none
  find := fun _ _ => none
  fromSon := fun cls r => Value.vdoc cls [] r.son
  hasAsyncInBulk := fun _ => false
  asyncInBulk := fun _ _ => none
  asyncGet := fun _ _ => none
  refToPython := fun _ v => v

/-- A world whose class lacks `async_in_bulk`, whose `async_get` succeeds
for identifier 1 and raises for every other identifier. -/
def demoWorldFallback : World where
  collNameOf := fun _ => "users"
  clsFields := fun _ => []
  inBulk := fun cls i => if cls = "User" && i == 1 then some demoUser else none
  find := fun _ _ => none
  fromSon := fun cls r => Value.vdoc cls [] r.son
  hasAsyncInBulk := fun _ => false
  asyncInBulk := fun _ _ => none
  asyncGet := fun cls i => if cls = "User" && i == 1 then some demoUser else none
  refToPython := fun _ v => v

/-- Field declarations of the demo `Blog` class: a reference field
`friend` and a list-of-references field `refs`. -/
def blogFields : List (String × FieldDecl) :=
  [("friend", { docType := "User", elemType := none }),
   ("refs", { docType := "User", elemType := some "User" })]

/-- A `Blog` document whose `friend` field and whose nested `refs` list
both point at `users` identifier 1. -/
def demoBlog : Value :=
  Value.vdoc "Blog" blogFields
    [("friend", Value.dbref "users" 1),
     ("refs", Value.vlist [Value.dbref "users" 1] none false)]

/-- Top-level input for the depth-boundary scenario. -/
def demoTree1 : Value := Value.vlist [demoBlog] none false

/-- Top-level input holding a plain `DBRef` and a `LazyReference` to the
same target. -/
def demoTree2 : Value :=
  Value.vlist [Value.dbref "users" 1, Value.lazyref "users" 1] none false

/-- Top-level input referencing `users` identifier 7 both from a typed
document field (bucket `docType "User"`) and as a bare `DBRef` (bucket
`collName "users"`). -/
def demoTree3 : Value :=
  Value.vlist
    [Value.vdoc "Blog" [("friend", { docType := "User", elemType := none })]
      [("friend", Value.dbref "users" 7)],
     Value.dbref "users" 7] none false

/-- A call-site instance whose field `grp` is a list of references to
`User` documents. -/
def demoInstance : CallInstance :=
  { id := "owner1"
    fields := [("grp", FieldSpec.wrapped (some (FieldSpec.refField "User" true)))] }

/-! Helper lemmas about the object map. -/

theorem omGet_eq_none (om : ObjMap) (k : String × Nat)
    (h : omMem om k = false) : omGet om k = none := by
  induction om with
  | nil => rfl
  | cons e rest ih =>
      obtain ⟨k', v⟩ := e
      simp [omMem] at h
      simp [omGet, h.1, ih h.2]

theorem omGetD_eq_self (om : ObjMap) (k : String × Nat) (d : Value)
    (h : omMem om k = false) : omGetD om k d = d := by
  simp [omGetD, omGet_eq_none om k h]


/-- C4: for a pointer whose `(collection, identifier)` key is absent from
the Object Map, the attacher leaves the pointer untouched at each of its
substitution sites — the top-level `{"_ref": ...}` mapping (lines 236-239),
a bare `DBRef` element of a container (lines 296-297), and a `DBRef`-valued
document field (lines 273-277, where the written-back value is exactly the
original pointer) — and, being a total function, raises no error. -/
theorem c4_missing_target_pointer_untouched
    (w : World) (md : Nat) (om : ObjMap) (c : String) (i : Nat)
    (h : omMem om (c, i) = false) :
    (∀ (kvs : List (String × Value)) (ow : Option OwnerTag) (d : Nat)
        (inst nm : Option String),
        containsKey kvs "_ref" = true →
        lookupD kvs "_ref" = Value.dbref c i →
        attachObjects w md om (Value.vdict kvs ow) d inst nm =
          Value.vdict kvs ow) ∧
    (∀ (dInc : Nat) (inst nm : Option String) (k : String),
        attachElem w md om dInc inst nm k (Value.dbref c i) =
          Value.dbref c i) ∧
    (∀ (dInc : Nat) (inst nm : Option String) (k fn : String)
        (fd : FieldDecl) (cur : List (String × Value)),
        attachDocField w md om dInc inst nm k fn fd (Value.dbref c i) cur =
          updateAssoc cur fn (Value.dbref c i)) := by
  refine ⟨?_, ?_, ?_⟩
  · intro kvs ow d inst nm hck hlk
    have hne : kvs ≠ [] := by
      intro he
      subst he
      simp [containsKey] at hck
    rw [attachObjects]
    simp [Value.isFalsy, List.isEmpty_iff, hne, attachBody, hck, hlk,
      Value.refKey, omGetD_eq_self _ _ _ h]
  · intro dInc inst nm k
    simp [attachElem, omGetD_eq_self _ _ _ h]
  · intro dInc inst nm k fn fd cur
    simp [attachDocField, omGetD_eq_self _ _ _ h]

/-- Witness for C4 at a concrete missing identifier. -/
theorem c4_missing_target_pointer_untouched_witness :
    omMem ([] : ObjMap) ("users", 9) = false ∧
    attachObjects demoWorld 1 [] (Value.vdict [("_ref", Value.dbref "users" 9)] none)
        0 none none = Value.vdict [("_ref", Value.dbref "users" 9)] none ∧
    attachElem demoWorld 1 [] 1 none none "0" (Value.dbref "users" 9) =
      Value.dbref "users" 9 := by
  refine ⟨rfl, ?_, ?_⟩
  · exact (c4_missing_target_pointer_untouched demoWorld 1 [] "users" 9 rfl).1
      [("_ref", Value.dbref "users" 9)] none 0 none none rfl rfl
  · exact (c4_missing_target_pointer_untouched demoWorld 1 [] "users" 9 rfl).2.1
      1 none none "0"

/-- C7: when the call-site field unwraps to a `ReferenceField` of class `t`
and every element (or every mapping value) of `items` is already an
instance of exactly that class, `DeReference.__call__` returns `items`
untouched before the scan phase runs (dereference.py lines 57-67). -/
theorem c7_already_resolved_early_return
    (w : World) (md : Nat) (ci : CallInstance) (n t : String) (flag : Bool)
    (h1 : (instFieldOf ci (some n)).bind unwrapFieldSpec =
      some (FieldSpec.refField t flag)) :
    (∀ xs ow edl, allElemsCls t (Value.vlist xs ow edl) = true →
      dereference w md (Value.vlist xs ow edl) (some ci) (some n) =
        Value.vlist xs ow edl) ∧
    (∀ kvs ow, allValsCls t (Value.vdict kvs ow) = true →
      dereference w md (Value.vdict kvs ow) (some ci) (some n) =
        Value.vdict kvs ow) := by
  constructor
  · intro xs ow edl h2
    simp [dereference, callPrepare, h1, Value.isDictLike, h2]
  · intro kvs ow h2
    simp [dereference, callPrepare, h1, Value.isDictLike, allElemsCls, h2]

/-- Witness for C7: a homogeneous list of `User` documents under a
list-of-references call-site field is returned untouched. -/
theorem c7_already_resolved_early_return_witness :
    (instFieldOf demoInstance (some "grp")).bind unwrapFieldSpec =
      some (FieldSpec.refField "User" true) ∧
    allElemsCls "User" (Value.vlist [demoUser, demoUser] none false) = true ∧
    dereference demoWorld 1 (Value.vlist [demoUser, demoUser] none false)
      (some demoInstance) (some "grp") =
      Value.vlist [demoUser, demoUser] none false := by
  refine ⟨rfl, rfl, ?_⟩
  exact (c7_already_resolved_early_return demoWorld 1 demoInstance "grp" "User"
    true rfl).1 [demoUser, demoUser] none false rfl

/-- C10 (amended): when `_meta` contained a `db_alias` key before entry,
`async_switch_db.__aexit__` (run identically on normal exit and after an
exception, whose arguments it ignores) restores the class exactly:
`_meta["db_alias"]`, `_collection`, `_async_collection` and every other
attribute equal their values from before `__aenter__`. -/
theorem c10_switch_db_restores (st : ClsState) (alias' a : String)
    (h : st.dbAliasMeta = some a) :
    switchDbExit (switchDbEnter st (switchDbInit st) alias').1
      (switchDbEnter st (switchDbInit st) alias').2 = st := by
  cases st with
  | mk db coll has acoll oth =>
      simp only [ClsState.mk.injEq] at h ⊢
      simp [switchDbInit, switchDbEnter, switchDbExit, h]
      cases has <;> simp

/-- Witness for C10 at a concrete class state holding a `db_alias` key. -/
theorem c10_switch_db_restores_witness :
    (⟨some "primary", some 5, true, some 6, 3⟩ : ClsState).dbAliasMeta =
      some "primary" ∧
    switchDbExit
      (switchDbEnter ⟨some "primary", some 5, true, some 6, 3⟩
        (switchDbInit ⟨some "primary", some 5, true, some 6, 3⟩) "testdb").1
      (switchDbEnter ⟨some "primary", some 5, true, some 6, 3⟩
        (switchDbInit ⟨some "primary", some 5, true, some 6, 3⟩) "testdb").2 =
      ⟨some "primary", some 5, true, some 6, 3⟩ :=
  ⟨rfl, c10_switch_db_restores ⟨some "primary", some 5, true, some 6, 3⟩
    "testdb" "primary" rfl⟩

/-- C10 counterexample: when `_meta` had no `db_alias` key before entry,
`__aexit__` stores the default alias under that key (the `__init__` read
used `.get("db_alias", DEFAULT_CONNECTION_NAME)`), so the class's `_meta`
is not equal to its pre-`__aenter__` value. -/
theorem c10_switch_db_counterexample :
    (switchDbExit
      (switchDbEnter ⟨none, some 5, true, some 6, 3⟩
        (switchDbInit ⟨none, some 5, true, some 6, 3⟩) "testdb").1
      (switchDbEnter ⟨none, some 5, true, some 6, 3⟩
        (switchDbInit ⟨none, some 5, true, some 6, 3⟩) "testdb").2).dbAliasMeta =
      some "default" ∧
    (⟨none, some 5, true, some 6, 3⟩ : ClsState).dbAliasMeta = none ∧
    switchDbExit
      (switchDbEnter ⟨none, some 5, true, some 6, 3⟩
        (switchDbInit ⟨none, some 5, true, some 6, 3⟩) "testdb").1
      (switchDbEnter ⟨none, some 5, true, some 6, 3⟩
        (switchDbInit ⟨none, some 5, true, some 6, 3⟩) "testdb").2 ≠
      ⟨none, some 5, true, some 6, 3⟩ := by
  refine ⟨rfl, rfl, ?_⟩
  decide


/-- The element loop of the attacher keeps the length of a sequence. -/
theorem attachItems_length (w : World) (md : Nat) (om : ObjMap) (dInc : Nat)
    (inst nm : Option String) (idx : Nat) (xs : List Value) :
    (attachItems w md om dInc inst nm idx xs).length = xs.length := by
  induction xs generalizing idx with
  | nil => simp [attachItems]
  | cons v rest ih => simp [attachItems, ih]

/-- The item loop of the attacher keeps a dict's keys and their order. -/
theorem attachPairs_keys (w : World) (md : Nat) (om : ObjMap) (dInc : Nat)
    (inst nm : Option String) (kvs : List (String × Value)) :
    (attachPairs w md om dInc inst nm kvs).map Prod.fst =
      kvs.map Prod.fst := by
  induction kvs with
  | nil => simp [attachPairs]
  | cons p rest ih =>
      obtain ⟨k, v⟩ := p
      simp [attachPairs, ih]

/-- C1 (amended): depth counts up from 0 toward `max_depth`; every scanner
call that reaches depth ≥ `max_depth` returns the empty reference map
(contributing no entries), and the attacher does not recurse into a
container element once the incremented depth exceeds `max_depth` (the
element is returned as it is).  Pointers sitting directly in a node whose
container-recursion reached the bound are nevertheless still substituted
by the attacher when their key is in the Object Map — see the
counterexample. -/
theorem c1_depth_bound (md : Nat) :
    (∀ (items : Value) (d : Nat), md ≤ d → findReferences md items d = []) ∧
    (∀ (w : World) (om : ObjMap) (dInc : Nat) (inst nm : Option String)
        (k : String) (v : Value), md < dInc → v.isContainer = true →
        attachElem w md om dInc inst nm k v = v) := by
  constructor
  · intro items d h
    rw [findReferences.eq_def]
    exact if_pos (Or.inr h)
  · intro w om dInc inst nm k v h hv
    have h' : ¬ dInc ≤ md := by omega
    cases v
    case vdict => simp [attachElem, h']
    case vlist => simp [attachElem, h']
    case vtuple => simp [attachElem, h']
    all_goals simp [Value.isContainer] at hv

/-- Witness for C1 at `max_depth = 1`, depth 1. -/
theorem c1_depth_bound_witness :
    (1 : Nat) ≤ 1 ∧
    findReferences 1 (Value.vlist [Value.dbref "users" 1] none false) 1 = [] ∧
    (1 : Nat) < 2 ∧
    (Value.vlist [Value.dbref "users" 1] none false).isContainer = true ∧
    attachElem demoWorld 1 [(("users", 1), demoUser)] 2 none none "0"
      (Value.vlist [Value.dbref "users" 1] none false) =
      Value.vlist [Value.dbref "users" 1] none false :=
  ⟨le_refl 1,
   (c1_depth_bound 1).1 (Value.vlist [Value.dbref "users" 1] none false) 1
     (le_refl 1),
   by omega, rfl,
   (c1_depth_bound 1).2 demoWorld [(("users", 1), demoUser)] 2 none none "0"
     (Value.vlist [Value.dbref "users" 1] none false) (by omega) rfl⟩

/-- C1 counterexample: with `max_depth = 1`, the scanner called on the
nested `refs` list at depth 1 contributes nothing, yet the full resolution
of `demoTree1` substitutes the resolved `User` for the `DBRef` inside that
very list (its key having been fetched through the shallow `friend`
field), so the node reached at depth ≥ `max_depth` is not returned
unchanged by the attacher. -/
theorem c1_depth_bound_counterexample :
    findReferences 1 (Value.vlist [Value.dbref "users" 1] none false) 1 = [] ∧
    dereference demoWorld 1 demoTree1 none none =
      Value.vlist
        [Value.vdoc "Blog" blogFields
          [("friend", demoUser),
           ("refs", Value.vlist [demoUser] none false)]] none false ∧
    Value.vlist [demoUser] none false ≠
      Value.vlist [Value.dbref "users" 1] none false := by
  refine ⟨?_, ?_, ?_⟩
  · rw [findReferences]
    simp
  · have h1 : findReferences 1 demoTree1 0 = [(TypeKey.docType "User", [1])] := by
      simp [demoTree1, demoBlog, blogFields, findReferences, scanItems,
        scanItem, scanDocFields, scanDocField, rmAdd, bucketAdd, rmMerge,
        rmMergeRetyped, containsKey, lookupD, Value.isFalsy]
    have h2 : fetchObjects demoWorld FetchDocType.noneTy
        [(TypeKey.docType "User", [1])] = [(("users", 1), demoUser)] := by
      simp [fetchObjects, fetchObjectsR, fetchBucket, demoWorld, demoUser,
        omMem, omSet]
    have h3 : attachObjects demoWorld 1 [(("users", 1), demoUser)] demoTree1 0
        none none =
        Value.vlist
          [Value.vdoc "Blog" blogFields
            [("friend", demoUser),
             ("refs", Value.vlist [demoUser] none false)]] none false := by
      simp [demoTree1, demoBlog, blogFields, demoUser, attachObjects,
        attachBody, attachItems, attachElem, attachDocFields, attachDocField,
        updateAssoc, lookupD, containsKey, omGetD, omGet, omMem, Value.refKey,
        Value.isFalsy, isTruthyName]
    have hstep : dereference demoWorld 1 demoTree1 none none =
        attachObjects demoWorld 1
          (fetchObjects demoWorld FetchDocType.noneTy
            (findReferences 1 demoTree1 0)) demoTree1 0 none none := rfl
    rw [hstep, h1, h2, h3]
  · simp [demoUser]

/-- C2 (amended): a `LazyReference` contributes no entry to the Reference
Map, whether met as a bare element of a container or as a record field
value; the attacher leaves it unchanged whenever its
`(collection, identifier)` key is absent from the Object Map.  When some
other, non-deferred reference caused that very key to be fetched, the
attacher does substitute the resolved object for the `LazyReference`
(which passes its `isinstance(v, DBRef)` test) — see the counterexample. -/
theorem c2_lazy_reference_skipped :
    (∀ (md dInc : Nat) (pre post : List Value) (acc : RefMap) (c : String)
        (i : Nat),
        scanItems md dInc (pre ++ Value.lazyref c i :: post) acc =
          scanItems md dInc (pre ++ post) acc) ∧
    (∀ (md dInc : Nat) (acc : RefMap) (fd : FieldDecl) (c : String) (i : Nat),
        scanDocField md dInc acc fd (Value.lazyref c i) = acc) ∧
    (∀ (w : World) (md : Nat) (om : ObjMap) (dInc : Nat)
        (inst nm : Option String) (k c : String) (i : Nat),
        omMem om (c, i) = false →
        attachElem w md om dInc inst nm k (Value.lazyref c i) =
          Value.lazyref c i) ∧
    (∀ (w : World) (md : Nat) (om : ObjMap) (dInc : Nat)
        (inst nm : Option String) (k fn c : String) (i : Nat)
        (fd : FieldDecl) (cur : List (String × Value)),
        omMem om (c, i) = false →
        attachDocField w md om dInc inst nm k fn fd (Value.lazyref c i) cur =
          updateAssoc cur fn (Value.lazyref c i)) := by
  refine ⟨?_, ?_, ?_, ?_⟩
  · intro md dInc pre post acc c i
    induction pre generalizing acc with
    | nil => simp [scanItems, scanItem]
    | cons x rest ih => simp [scanItems, ih]
  · intro md dInc acc fd c i
    simp [scanDocField]
  · intro w md om dInc inst nm k c i h
    simp [attachElem, omGetD_eq_self _ _ _ h]
  · intro w md om dInc inst nm k fn c i fd cur h
    simp [attachDocField, omGetD_eq_self _ _ _ h]

/-- Witness for C2 at a concrete deferred pointer with no fetched key. -/
theorem c2_lazy_reference_skipped_witness :
    scanItems 1 1 [Value.lazyref "users" 3] [] = scanItems 1 1 [] [] ∧
    omMem ([] : ObjMap) ("users", 3) = false ∧
    attachElem demoWorld 1 [] 1 none none "0" (Value.lazyref "users" 3) =
      Value.lazyref "users" 3 := by
  refine ⟨?_, rfl, ?_⟩
  · exact c2_lazy_reference_skipped.1 1 1 [] [] [] "users" 3
  · exact c2_lazy_reference_skipped.2.2.1 demoWorld 1 [] 1 none none "0"
      "users" 3 rfl

/-- C2 counterexample: resolving a list holding a plain `DBRef` and a
`LazyReference` to the same target replaces both — the deferred pointer is
not preserved in the output once its key was fetched for the plain
reference. -/
theorem c2_lazy_reference_counterexample :
    dereference demoWorld 1 demoTree2 none none =
      Value.vlist [demoUser, demoUser] none false ∧
    demoUser ≠ Value.lazyref "users" 1 := by
  constructor
  · have h1 : findReferences 1 demoTree2 0 = [(TypeKey.collName "users", [1])] := by
      simp [demoTree2, findReferences, scanItems, scanItem, rmAdd, bucketAdd,
        rmMerge, containsKey, lookupD, Value.isFalsy]
    have h2 : fetchObjects demoWorld FetchDocType.noneTy
        [(TypeKey.collName "users", [1])] = [(("users", 1), demoUser)] := by
      simp [fetchObjects, fetchObjectsR, fetchBucket, demoWorld, demoUser,
        omMem, omSet]
    have h3 : attachObjects demoWorld 1 [(("users", 1), demoUser)] demoTree2 0
        none none = Value.vlist [demoUser, demoUser] none false := by
      simp [demoTree2, demoUser, attachObjects, attachBody, attachItems,
        attachElem, omGetD, omGet, Value.refKey, Value.isFalsy, isTruthyName]
    have hstep : dereference demoWorld 1 demoTree2 none none =
        attachObjects demoWorld 1
          (fetchObjects demoWorld FetchDocType.noneTy
            (findReferences 1 demoTree2 0)) demoTree2 0 none none := rfl
    rw [hstep, h1, h2, h3]
  · simp [demoUser]

/-- C6 (amended): for nonempty inputs, when the attacher call carries an
owner instance and a truthy field name (as the entry point supplies for an
owner-tracked input), container kind is preserved: a nonempty tuple input
is rebuilt as a tuple of the same length, a nonempty list input as an
owner-tracked list bearing exactly that owner and path
(`EmbeddedDocumentList`-ness preserved), and a nonempty plain mapping
input as an owner-tracked mapping with the same keys.  Empty inputs take
the falsy guard (lines 225-233) instead: an empty owner-tracked container
is returned unchanged with its original owner; an empty plain container
supplied with an owner is rewrapped as an owner-tracked list or mapping,
so an empty tuple with an owner comes back as an owner-tracked list, not
a tuple.  Without both owner and truthy name the loop result is a plain
container — a tuple input degrades to a plain list, see the
counterexample. -/
theorem c6_container_kind_with_owner (w : World) (md : Nat) (om : ObjMap)
    (d : Nat) (instId nm : String) (hnm : nm ≠ "") :
    (∀ xs, xs ≠ [] →
      ∃ ys, attachObjects w md om (Value.vtuple xs) d (some instId)
          (some nm) = Value.vtuple ys ∧ ys.length = xs.length) ∧
    (∀ xs ow edl, xs ≠ [] →
      ∃ ys, attachObjects w md om (Value.vlist xs ow edl) d (some instId)
          (some nm) = Value.vlist ys (some (some instId, some nm)) edl ∧
        ys.length = xs.length) ∧
    (∀ kvs ow, kvs ≠ [] → containsKey kvs "_ref" = false →
      containsKey kvs "_cls" = false →
      ∃ res, attachObjects w md om (Value.vdict kvs ow) d (some instId)
          (some nm) = Value.vdict res (some (some instId, some nm)) ∧
        res.map Prod.fst = kvs.map Prod.fst) ∧
    (∀ name : Option String,
      attachObjects w md om (Value.vtuple []) d (some instId) name =
        Value.vlist [] (some (some instId, name)) false) ∧
    (∀ (inst name : Option String) (ow : OwnerTag) (edl : Bool),
      attachObjects w md om (Value.vlist [] (some ow) edl) d inst name =
        Value.vlist [] (some ow) edl) ∧
    (∀ (inst name : Option String) (ow : OwnerTag),
      attachObjects w md om (Value.vdict [] (some ow)) d inst name =
        Value.vdict [] (some ow)) ∧
    (∀ (name : Option String) (edl : Bool),
      attachObjects w md om (Value.vlist [] none edl) d (some instId) name =
        Value.vlist [] (some (some instId, name)) false) ∧
    (∀ name : Option String,
      attachObjects w md om (Value.vdict [] none) d (some instId) name =
        Value.vdict [] (some (some instId, name))) := by
  refine ⟨?_, ?_, ?_, ?_, ?_, ?_, ?_, ?_⟩
  · intro xs hne
    refine ⟨attachItems w md om (d + 1) (some instId) (some nm) 0 xs, ?_, ?_⟩
    · rw [attachObjects]
      simp [Value.isFalsy, List.isEmpty_iff, hne, attachBody, isTruthyName,
        hnm]
    · exact attachItems_length w md om (d + 1) (some instId) (some nm) 0 xs
  · intro xs ow edl hne
    refine ⟨attachItems w md om (d + 1) (some instId) (some nm) 0 xs, ?_, ?_⟩
    · rw [attachObjects]
      simp [Value.isFalsy, List.isEmpty_iff, hne, attachBody, isTruthyName,
        hnm]
    · exact attachItems_length w md om (d + 1) (some instId) (some nm) 0 xs
  · intro kvs ow hne hr hc
    refine ⟨attachPairs w md om (d + 1) (some instId) (some nm) kvs, ?_, ?_⟩
    · rw [attachObjects]
      simp [Value.isFalsy, List.isEmpty_iff, hne, attachBody, hr, hc,
        isTruthyName, hnm]
    · exact attachPairs_keys w md om (d + 1) (some instId) (some nm) kvs
  · intro name
    rw [attachObjects]
    simp [Value.isFalsy, Value.isOwned]
  · intro inst name ow edl
    rw [attachObjects]
    simp [Value.isFalsy, Value.isOwned]
  · intro inst name ow
    rw [attachObjects]
    simp [Value.isFalsy, Value.isOwned]
  · intro name edl
    rw [attachObjects]
    simp [Value.isFalsy, Value.isOwned]
  · intro name
    rw [attachObjects]
    simp [Value.isFalsy, Value.isOwned]

/-- Witness for C6 at a concrete owner-tracked call, exercising the
nonempty tuple case and the empty-tuple falsy-guard case. -/
theorem c6_container_kind_with_owner_witness :
    ("grp" : String) ≠ "" ∧
    ([Value.scalar 1] : List Value) ≠ [] ∧
    (∃ ys, attachObjects demoWorld 1 [] (Value.vtuple [Value.scalar 1]) 0
        (some "owner1") (some "grp") = Value.vtuple ys ∧
      ys.length = [Value.scalar 1].length) ∧
    attachObjects demoWorld 1 [] (Value.vtuple []) 0 (some "owner1")
      (some "grp") =
      Value.vlist [] (some (some "owner1", some "grp")) false ∧
    attachObjects demoWorld 1 []
      (Value.vlist [] (some (some "owner0", some "f")) false) 0
      (some "owner1") (some "grp") =
      Value.vlist [] (some (some "owner0", some "f")) false := by
  refine ⟨by simp, by simp, ?_, ?_, ?_⟩
  · exact (c6_container_kind_with_owner demoWorld 1 [] 0 "owner1" "grp"
      (by simp)).1 [Value.scalar 1] (by simp)
  · exact (c6_container_kind_with_owner demoWorld 1 [] 0 "owner1" "grp"
      (by simp)).2.2.2.1 (some "grp")
  · exact (c6_container_kind_with_owner demoWorld 1 [] 0 "owner1" "grp"
      (by simp)).2.2.2.2.1 (some "owner1") (some "grp")
      (some "owner0", some "f") false

/-- C6 counterexample: the attacher called without an owner (as happens
for every nested tuple under a top-level call with `instance=None`, and
for the top level itself when no owner is supplied) rebuilds a tuple input
as a plain list — the fixed-length container kind is not preserved. -/
theorem c6_container_kind_counterexample :
    attachObjects demoWorld 1 [] (Value.vtuple [Value.scalar 1]) 0 none none =
      Value.vlist [Value.scalar 1] none false ∧
    Value.vlist [Value.scalar 1] none false ≠
      Value.vtuple [Value.scalar 1] := by
  constructor
  · rw [attachObjects]
    simp [Value.isFalsy, attachBody, attachItems, attachElem, isTruthyName]
  · simp


/-! Helper lemmas about `omSet`. -/

theorem omGet_omSet_self (om : ObjMap) (k : String × Nat) (v : Value) :
    omGet (omSet om k v) k = some v := by
  induction om with
  | nil => simp [omSet, omGet]
  | cons e rest ih =>
      obtain ⟨k', v'⟩ := e
      by_cases h : k' = k <;> simp [omSet, omGet, h, ih]

theorem omGet_omSet_ne (om : ObjMap) (k k' : String × Nat) (v : Value)
    (h : k' ≠ k) : omGet (omSet om k v) k' = omGet om k' := by
  induction om with
  | nil => simp [omSet, omGet, Ne.symm h]
  | cons e rest ih =>
      obtain ⟨k'', v''⟩ := e
      by_cases h2 : k'' = k
      · subst h2
        simp [omSet, omGet, Ne.symm h]
      · simp [omSet, omGet, h2, ih]

theorem omMem_omSet (om : ObjMap) (k k' : String × Nat) (v : Value)
    (h : k' ≠ k) : omMem (omSet om k v) k' = omMem om k' := by
  induction om with
  | nil => simp [omSet, omMem, Ne.symm h]
  | cons e rest ih =>
      obtain ⟨k'', v''⟩ := e
      by_cases h2 : k'' = k
      · subst h2
        simp [omSet, omMem, Ne.symm h]
      · simp [omSet, omMem, h2, ih]

/-- C5: for equivalent stored data — the bulk helpers `async_in_bulk` and
`async_get` reporting exactly what the blocking `in_bulk` reports, and the
raw `find` shared by construction (both variants query the same stored
rows) — the suspending fetcher produces exactly the object map of the
blocking fetcher, for every reference map and every `doc_type`: the two
variants differ only in the I/O primitive. -/
theorem c5_fetch_variants_agree (w : World) (dt : FetchDocType)
    (h1 : w.asyncInBulk = w.inBulk) (h2 : w.asyncGet = w.inBulk)
    (rm : RefMap) : asyncFetchObjects w dt rm = fetchObjects w dt rm := by
  have hbucket : ∀ (key : TypeKey) (ids : List Nat) (om : ObjMap)
      (reqs : List (String × List Nat)),
      asyncFetchBucket w dt om key ids =
        (fetchBucket w dt (om, reqs) key ids).1 := by
    intro key ids om reqs
    cases key with
    | docType cls => simp [asyncFetchBucket, fetchBucket, h1, h2]
    | collName c => cases dt <;> simp [asyncFetchBucket, fetchBucket]
  have hgen : ∀ (rm : RefMap) (om : ObjMap)
      (reqs : List (String × List Nat)),
      rm.foldl (fun om kb => asyncFetchBucket w dt om kb.1 kb.2) om =
        (rm.foldl (fun st kb => fetchBucket w dt st kb.1 kb.2) (om, reqs)).1 := by
    intro rm
    induction rm with
    | nil => intro om reqs; rfl
    | cons kb rest ih =>
        intro om reqs
        simp only [List.foldl_cons]
        rw [hbucket kb.1 kb.2 om reqs,
          ih ((fetchBucket w dt (om, reqs) kb.1 kb.2).1)
            ((fetchBucket w dt (om, reqs) kb.1 kb.2).2)]
  exact hgen rm [] []

/-- Witness for C5: the demo world's suspending helpers agree with its
blocking helper definitionally, and both fetchers produce the same object
map on a concrete reference map. -/
theorem c5_fetch_variants_agree_witness :
    demoWorld.asyncInBulk = demoWorld.inBulk ∧
    demoWorld.asyncGet = demoWorld.inBulk ∧
    asyncFetchObjects demoWorld FetchDocType.noneTy
        [(TypeKey.docType "User", [1, 2]), (TypeKey.collName "users", [1])] =
      fetchObjects demoWorld FetchDocType.noneTy
        [(TypeKey.docType "User", [1, 2]), (TypeKey.collName "users", [1])] :=
  ⟨rfl, rfl,
   c5_fetch_variants_agree demoWorld FetchDocType.noneTy rfl rfl
     [(TypeKey.docType "User", [1, 2]), (TypeKey.collName "users", [1])]⟩

/-- C8: when a class's query set lacks `async_in_bulk`, the suspending
fetcher degrades to one `async_get` call per identifier; an identifier
whose fetch raises (modelled by `asyncGet = none`) is caught and swallowed
— it is simply absent from the object map — while every other identifier
of the same batch is still fetched and present with its document. -/
theorem c8_async_fallback_per_identifier (w : World) (dt : FetchDocType)
    (cls : String) (ids : List Nat)
    (hno : w.hasAsyncInBulk cls = false) :
    (∀ i d, i ∈ ids → w.asyncGet cls i = some d →
      omGet (asyncFetchBucket w dt [] (TypeKey.docType cls) ids)
        (w.collNameOf cls, i) = some d) ∧
    (∀ i, w.asyncGet cls i = none →
      omMem (asyncFetchBucket w dt [] (TypeKey.docType cls) ids)
        (w.collNameOf cls, i) = false) := by
  have hrefs : ids.filter (fun i => !(omMem ([] : ObjMap)
      (w.collNameOf cls, i))) = ids := by
    simp [omMem]
  have hone : ∀ (rest : List Nat) (om : ObjMap) (i : Nat) (d : Value),
      w.asyncGet cls i = some d →
      (i ∈ rest ∨ omGet om (w.collNameOf cls, i) = some d) →
      omGet ((rest.filterMap
          (fun j => (w.asyncGet cls j).map ((j, ·)))).foldl
        (fun om e => omSet om (w.collNameOf cls, e.1) e.2) om)
        (w.collNameOf cls, i) = some d := by
    intro rest
    induction rest with
    | nil =>
        intro om i d _ hin
        simpa using hin.resolve_left (by simp)
    | cons j rest ih =>
        intro om i d hget hin
        rw [List.filterMap_cons]
        by_cases hj : j = i
        · subst hj
          rw [hget]
          simp only [Option.map_some']
          rw [List.foldl_cons]
          exact ih _ j d hget (Or.inr (omGet_omSet_self _ _ _))
        · cases hg : w.asyncGet cls j with
          | none =>
              simp only [Option.map_none']
              refine ih om i d hget ?_
              rcases hin with hin | hin
              · rcases List.mem_cons.mp hin with he | hin
                · exact absurd he.symm hj
                · exact Or.inl hin
              · exact Or.inr hin
          | some e =>
              simp only [Option.map_some']
              rw [List.foldl_cons]
              refine ih _ i d hget ?_
              rcases hin with hin | hin
              · rcases List.mem_cons.mp hin with he | hin
                · exact absurd he.symm hj
                · exact Or.inl hin
              · refine Or.inr ?_
                have hne : ((w.collNameOf cls, i) : String × Nat) ≠
                    (w.collNameOf cls, j) := by
                  intro he
                  simp at he
                  exact hj he.symm
                rw [omGet_omSet_ne _ _ _ _ hne]
                exact hin
  have habs : ∀ (rest : List Nat) (om : ObjMap) (i : Nat),
      w.asyncGet cls i = none →
      omMem om (w.collNameOf cls, i) = false →
      omMem ((rest.filterMap
          (fun j => (w.asyncGet cls j).map ((j, ·)))).foldl
        (fun om e => omSet om (w.collNameOf cls, e.1) e.2) om)
        (w.collNameOf cls, i) = false := by
    intro rest
    induction rest with
    | nil =>
        intro om i _ hm
        simpa using hm
    | cons j rest ih =>
        intro om i hget hm
        rw [List.filterMap_cons]
        cases hg : w.asyncGet cls j with
        | none =>
            simp only [Option.map_none']
            exact ih om i hget hm
        | some e =>
            have hne : ((w.collNameOf cls, i) : String × Nat) ≠
                (w.collNameOf cls, j) := by
              intro he
              simp at he
              rw [he, hg] at hget
              exact Option.noConfusion hget
            simp only [Option.map_some']
            rw [List.foldl_cons]
            refine ih _ i hget ?_
            rw [omMem_omSet _ _ _ _ hne]
            exact hm
  constructor
  · intro i d hin hget
    simpa [asyncFetchBucket, hno, hrefs] using
      hone ids [] i d hget (Or.inl hin)
  · intro i hget
    simpa [asyncFetchBucket, hno, hrefs] using
      habs ids [] i hget (by simp [omMem])

/-- Witness for C8: identifier 2's fetch raises and is absent, while
identifier 1 of the same batch is present. -/
theorem c8_async_fallback_per_identifier_witness :
    demoWorldFallback.hasAsyncInBulk "User" = false ∧
    (1 : Nat) ∈ [1, 2] ∧
    demoWorldFallback.asyncGet "User" 1 = some demoUser ∧
    demoWorldFallback.asyncGet "User" 2 = none ∧
    omGet (asyncFetchBucket demoWorldFallback FetchDocType.noneTy []
        (TypeKey.docType "User") [1, 2])
      (demoWorldFallback.collNameOf "User", 1) = some demoUser ∧
    omMem (asyncFetchBucket demoWorldFallback FetchDocType.noneTy []
        (TypeKey.docType "User") [1, 2])
      (demoWorldFallback.collNameOf "User", 2) = false := by
  refine ⟨rfl, by simp, rfl, rfl, ?_, ?_⟩
  · exact (c8_async_fallback_per_identifier demoWorldFallback
      FetchDocType.noneTy "User" [1, 2] rfl).1 1 demoUser (by simp) rfl
  · exact (c8_async_fallback_per_identifier demoWorldFallback
      FetchDocType.noneTy "User" [1, 2] rfl).2 2 rfl


/-! Buckets of the reference map are sets: every operation that builds
them keeps them duplicate-free. -/

theorem bucketAdd_nodup (b : List Nat) (i : Nat) (h : b.Nodup) :
    (bucketAdd b i).Nodup := by
  unfold bucketAdd
  split
  · exact h
  · next hmem => simpa [List.nodup_append] using ⟨h, hmem⟩

theorem bucketUnion_nodup (refs b : List Nat) (h : b.Nodup) :
    (bucketUnion b refs).Nodup := by
  induction refs generalizing b with
  | nil => simpa [bucketUnion]
  | cons r rest ih =>
      simpa [bucketUnion, List.foldl_cons] using ih _ (bucketAdd_nodup b r h)

/-- All buckets of a reference map are duplicate-free. -/
def RMOk (m : RefMap) : Prop := ∀ kb ∈ m, kb.2.Nodup

theorem rmOk_nil : RMOk [] := by intro kb h; cases h

theorem rmAdd_ok (m : RefMap) (k : TypeKey) (i : Nat) (h : RMOk m) :
    RMOk (rmAdd m k i) := by
  induction m with
  | nil =>
      intro kb hm
      simp [rmAdd] at hm
      simp [hm]
  | cons e rest ih =>
      obtain ⟨k', b⟩ := e
      intro kb hm
      by_cases hk : k' = k
      · simp [rmAdd, hk] at hm
        rcases hm with hm | hm
        · subst hm
          exact bucketAdd_nodup b i (h (k, b) (by rw [← hk]; exact List.mem_cons_self _ _))
        · exact h kb (List.mem_cons_of_mem _ hm)
      · simp [rmAdd, hk] at hm
        rcases hm with hm | hm
        · subst hm
          exact h (k', b) (List.mem_cons_self _ _)
        · exact ih (fun kb hkb => h kb (List.mem_cons_of_mem _ hkb)) kb hm

theorem rmUpdate_ok (m : RefMap) (k : TypeKey) (refs : List Nat)
    (h : RMOk m) : RMOk (rmUpdate m k refs) := by
  induction m with
  | nil =>
      intro kb hm
      simp [rmUpdate] at hm
      simp [hm]
      exact bucketUnion_nodup refs [] (by simp)
  | cons e rest ih =>
      obtain ⟨k', b⟩ := e
      intro kb hm
      by_cases hk : k' = k
      · simp [rmUpdate, hk] at hm
        rcases hm with hm | hm
        · subst hm
          exact bucketUnion_nodup refs b
            (h (k, b) (by rw [← hk]; exact List.mem_cons_self _ _))
        · exact h kb (List.mem_cons_of_mem _ hm)
      · simp [rmUpdate, hk] at hm
        rcases hm with hm | hm
        · subst hm
          exact h (k', b) (List.mem_cons_self _ _)
        · exact ih (fun kb hkb => h kb (List.mem_cons_of_mem _ hkb)) kb hm

theorem rmMerge_ok (child acc : RefMap) (h : RMOk acc) :
    RMOk (rmMerge acc child) := by
  induction child generalizing acc with
  | nil => simpa [rmMerge]
  | cons kb rest ih =>
      simpa [rmMerge, List.foldl_cons] using ih _ (rmUpdate_ok _ _ _ h)

theorem rmMergeRetyped_ok (child : RefMap) (acc : RefMap)
    (et : Option String) (h : RMOk acc) : RMOk (rmMergeRetyped acc child et) := by
  induction child generalizing acc with
  | nil => simpa [rmMergeRetyped]
  | cons kb rest ih =>
      cases et with
      | none =>
          simpa [rmMergeRetyped, List.foldl_cons] using
            ih _ (rmUpdate_ok _ _ _ h)
      | some t =>
          simpa [rmMergeRetyped, List.foldl_cons] using
            ih _ (rmUpdate_ok _ _ _ h)

theorem taggedAdd_ok (acc : RefMap) (kvs : List (String × Value))
    (h : RMOk acc) : RMOk (taggedAdd acc kvs) := by
  unfold taggedAdd
  split
  · exact rmAdd_ok _ _ _ h
  · exact h

theorem scanDocField_ok (md dInc : Nat) (acc : RefMap) (fd : FieldDecl)
    (v : Value) (h : RMOk acc) : RMOk (scanDocField md dInc acc fd v) := by
  cases v <;> simp only [scanDocField]
  case lazyref => exact h
  case dbref => exact rmAdd_ok _ _ _ h
  case vdict kvs ow =>
      split
      · exact taggedAdd_ok _ _ h
      · split
        · exact rmMergeRetyped_ok _ _ _ h
        · exact h
  case vlist =>
      split
      · exact rmMergeRetyped_ok _ _ _ h
      · exact h
  case vtuple =>
      split
      · exact rmMergeRetyped_ok _ _ _ h
      · exact h
  all_goals exact h

theorem scanDocFields_ok (md dInc : Nat) (flds : List (String × FieldDecl))
    (ddata : List (String × Value)) (acc : RefMap) (h : RMOk acc) :
    RMOk (scanDocFields md dInc acc flds ddata) := by
  induction flds generalizing acc with
  | nil => simpa [scanDocFields]
  | cons fp rest ih =>
      obtain ⟨fn, fd⟩ := fp
      simpa [scanDocFields] using ih _ (scanDocField_ok _ _ _ _ _ h)

theorem scanItem_ok (md dInc : Nat) (acc : RefMap) (item : Value)
    (h : RMOk acc) : RMOk (scanItem md dInc acc item) := by
  cases item <;> simp only [scanItem]
  case vdoc => exact scanDocFields_ok _ _ _ _ _ h
  case lazyref => exact h
  case dbref => exact rmAdd_ok _ _ _ h
  case vdict kvs ow =>
      split
      · exact taggedAdd_ok _ _ h
      · split
        · exact rmMerge_ok _ _ h
        · exact h
  case vlist =>
      split
      · exact rmMerge_ok _ _ h
      · exact h
  case vtuple =>
      split
      · exact rmMerge_ok _ _ h
      · exact h
  all_goals exact h

theorem scanItems_ok (md dInc : Nat) (xs : List Value) (acc : RefMap)
    (h : RMOk acc) : RMOk (scanItems md dInc xs acc) := by
  induction xs generalizing acc with
  | nil => simpa [scanItems]
  | cons v rest ih =>
      simpa [scanItems] using ih _ (scanItem_ok _ _ _ _ h)

theorem scanPairs_ok (md dInc : Nat) (kvs : List (String × Value))
    (acc : RefMap) (h : RMOk acc) : RMOk (scanPairs md dInc kvs acc) := by
  induction kvs generalizing acc with
  | nil => simpa [scanPairs]
  | cons p rest ih =>
      obtain ⟨k, v⟩ := p
      simpa [scanPairs] using ih _ (scanItem_ok _ _ _ _ h)

theorem findReferences_ok (md : Nat) (items : Value) (d : Nat) :
    RMOk (findReferences md items d) := by
  rw [findReferences.eq_def]
  split
  · exact rmOk_nil
  · cases items
    case vdict => exact scanPairs_ok _ _ _ _ rmOk_nil
    case vlist => exact scanItems_ok _ _ _ _ rmOk_nil
    case vtuple => exact scanItems_ok _ _ _ _ rmOk_nil
    all_goals exact rmOk_nil

/-- Every bulk lookup issued by one bucket of the fetcher carries a
duplicate-free identifier list when the bucket is duplicate-free, and the
previously accumulated lookups are kept. -/
theorem fetchBucket_reqs (w : World) (dt : FetchDocType)
    (st : ObjMap × List (String × List Nat)) (key : TypeKey)
    (ids : List Nat) (hids : ids.Nodup)
    (hst : ∀ r ∈ st.2, r.2.Nodup) :
    ∀ r ∈ (fetchBucket w dt st key ids).2, r.2.Nodup := by
  cases key with
  | docType cls =>
      intro r hr
      simp only [fetchBucket] at hr
      rcases List.mem_append.mp hr with hr | hr
      · exact hst r hr
      · simp at hr
        simp [hr, List.Nodup.filter _ hids]
  | collName c =>
      cases dt with
      | containerF =>
          intro r hr
          exact hst r hr
      | docCls t =>
          intro r hr
          simp only [fetchBucket] at hr
          rcases List.mem_append.mp hr with hr | hr
          · exact hst r hr
          · simp at hr
            simp [hr, List.Nodup.filter _ hids]
      | noneTy =>
          intro r hr
          simp only [fetchBucket] at hr
          rcases List.mem_append.mp hr with hr | hr
          · exact hst r hr
          · simp at hr
            simp [hr, List.Nodup.filter _ hids]

/-- C3 (amended): Reference Map buckets are sets — every bucket the
scanner produces is duplicate-free — so each bulk lookup the blocking
fetcher issues requests each identifier at most once, the fetcher having
additionally subtracted identifiers already resolved into the Object Map.
An identifier referenced many times in the tree under one bucket key is
therefore requested in exactly one lookup of that bucket.  But when two
distinct buckets alias the same physical collection and the identifier is
absent from the stored data (so the first lookup resolves nothing into the
Object Map), the identifier is requested again by the second bucket's
lookup — see the counterexample. -/
theorem c3_dedup_within_lookup (w : World) (dt : FetchDocType) (md : Nat)
    (items : Value) (d : Nat) :
    (∀ kb ∈ findReferences md items d, kb.2.Nodup) ∧
    (∀ r ∈ (fetchObjectsR w dt (findReferences md items d)).2,
      r.2.Nodup) := by
  refine ⟨findReferences_ok md items d, ?_⟩
  have hgen : ∀ (rm : RefMap) (st : ObjMap × List (String × List Nat)),
      RMOk rm → (∀ r ∈ st.2, r.2.Nodup) →
      ∀ r ∈ (rm.foldl (fun st kb => fetchBucket w dt st kb.1 kb.2) st).2,
        r.2.Nodup := by
    intro rm
    induction rm with
    | nil => intro st _ hst; simpa using hst
    | cons kb rest ih =>
        intro st hok hst
        simp only [List.foldl_cons]
        refine ih _ (fun p hp => hok p (List.mem_cons_of_mem _ hp)) ?_
        exact fetchBucket_reqs w dt st kb.1 kb.2
          (hok kb (List.mem_cons_self _ _)) hst
  intro r hr
  exact hgen (findReferences md items d) ([], [])
    (findReferences_ok md items d) (by simp) r hr

/-- Witness for C3 on a concrete tree referencing one identifier twice:
the single lookup issued requests it once. -/
theorem c3_dedup_within_lookup_witness :
    (fetchObjectsR demoWorld FetchDocType.noneTy
        (findReferences 1 demoTree2 0)).2 = [("users", [1])] ∧
    ("users", [1]) ∈ (fetchObjectsR demoWorld FetchDocType.noneTy
        (findReferences 1 demoTree2 0)).2 ∧
    ([1] : List Nat).Nodup := by
  have h1 : findReferences 1 demoTree2 0 = [(TypeKey.collName "users", [1])] := by
    simp [demoTree2, findReferences, scanItems, scanItem, rmAdd, bucketAdd,
      rmMerge, containsKey, lookupD, Value.isFalsy]
  have h2 : (fetchObjectsR demoWorld FetchDocType.noneTy
      [(TypeKey.collName "users", [1])]).2 = [("users", [1])] := by
    simp [fetchObjectsR, fetchBucket, demoWorld, omMem, omSet]
  have hmem : ("users", [1]) ∈ (fetchObjectsR demoWorld FetchDocType.noneTy
      (findReferences 1 demoTree2 0)).2 := by
    rw [h1, h2]
    simp
  exact ⟨by rw [h1]; exact h2, hmem,
    (c3_dedup_within_lookup demoWorld FetchDocType.noneTy 1 demoTree2 0).2
      ("users", [1]) hmem⟩

/-- C3 counterexample: `demoTree3` references `users` identifier 7 both
through a typed document field (bucket keyed by the `User` class) and as a
bare `DBRef` (bucket keyed by the raw collection name).  The identifier is
absent from the stored data, so the first lookup resolves nothing, the
subtraction in the second bucket finds nothing to subtract, and the fetch
stage requests identifier 7 of collection `users` in two lookups, not
exactly one. -/
theorem c3_dedup_counterexample :
    (fetchObjectsR demoWorldEmpty FetchDocType.noneTy
        (findReferences 1 demoTree3 0)).2 =
      [("users", [7]), ("users", [7])] ∧
    ((fetchObjectsR demoWorldEmpty FetchDocType.noneTy
        (findReferences 1 demoTree3 0)).2.filter
      (fun r => r.1 = "users" && r.2.contains 7)).length = 2 := by
  have h1 : findReferences 1 demoTree3 0 =
      [(TypeKey.docType "User", [7]), (TypeKey.collName "users", [7])] := by
    simp [demoTree3, findReferences, scanItems, scanItem, scanDocFields,
      scanDocField, rmAdd, bucketAdd, rmMerge, rmMergeRetyped, containsKey,
      lookupD, Value.isFalsy]
  have h2 : (fetchObjectsR demoWorldEmpty FetchDocType.noneTy
      [(TypeKey.docType "User", [7]), (TypeKey.collName "users", [7])]).2 =
      [("users", [7]), ("users", [7])] := by
    simp [fetchObjectsR, fetchBucket, demoWorldEmpty, omMem, omSet]
  constructor
  · rw [h1]
    exact h2
  · rw [h1, h2]
    rfl


end Mongo
